import Mathlib

/-!
# Beekeeper: the ping command's cluster setup and stage plan, the pinned-content
durability check and the single-owner-chunk integrity check

Shallow embedding of

* `cmd/beekeeper/cmd/check_ping.go` (`initCheckPing`, `checkStages`),
* `pkg/check/localpinning/bytes_found.go` (`CheckBytesFound`),
* `pkg/check/soc/soc.go` (`Check`, `randomID`).

Go `int` is a 64-bit two's-complement integer; it is embedded as `Int` with an
explicit wrap where an arithmetic result can leave the range.  External calls
(node API, Kubernetes, crypto) are embedded as an explicit environment whose
answers are arbitrary; every run records the calls it performed and their
answers.
-/

/-! ## Shared Go-level notions -/

/-- Go `error` values: `errors.New`, `fmt.Errorf` wrapping with `%w`, and errors
that come back from calls outside the embedded code. -/
inductive GoErr where
  | New (msg : String)
  | Errorf (format : String) (args : List Int) (inner : GoErr)
  | ext (code : Nat)
  deriving DecidableEq, Repr

/-- How a Go function call ends: a normal return with a value, a returned
`error`, or a run-time panic. -/
inductive Outcome (α : Type) where
  | ok (a : α)
  | error (e : GoErr)
  | panic (msg : String)
  deriving DecidableEq, Repr

/-- Lower bound of Go `int` (64 bit). -/
def minInt : Int := -(2 ^ 63)

/-- Upper bound of Go `int` (64 bit). -/
def maxInt : Int := 2 ^ 63 - 1

/-- Two's-complement wrap of a mathematical integer into Go `int`. -/
def wrapInt (x : Int) : Int := (x + 2 ^ 63) % 2 ^ 64 - 2 ^ 63

/-- Go `a / b` on `int` for `b ≠ 0`: truncated division, wrapped. -/
def goDiv (a b : Int) : Int := wrapInt (Int.tdiv a b)

/-- Go `a * b` on `int`: wrapped product. -/
def goMul (a b : Int) : Int := wrapInt (a * b)

/-- The ASCII digit for `d < 10`. -/
def digitChar (d : Nat) : Char := Char.ofNat (48 + d)

/-- The digit loop of Go's decimal formatting (`strconv.formatBits`, base 10):
the low digit is peeled off and written in front of what is already there. -/
def formatBits : Nat → Nat → List Char → List Char
  | 0, _, acc => acc
  | fuel + 1, u, acc =>
    if u < 10 then digitChar u :: acc
    else formatBits fuel (u / 10) (digitChar (u % 10) :: acc)

/-- The verb `%d` of `fmt.Sprintf` for a non-negative `int`. -/
def itoa (n : Nat) : String := String.mk (formatBits (n + 1) n [])

/-- The value that a run of decimal digits denotes. -/
def decodeDigits (l : List Char) : Nat :=
  l.foldl (fun acc c => acc * 10 + (c.toNat - 48)) 0

/-- Go `strings.Split(s, sep)` for a one-byte separator, on the characters of
`s`: the pieces between the separators, `n + 1` pieces for `n` separators. -/
def splitChars (sep : Char) : List Char → List (List Char)
  | [] => [[]]
  | c :: cs =>
    if c = sep then [] :: splitChars sep cs
    else
      match splitChars sep cs with
      | [] => [[c]]
      | h :: t => (c :: h) :: t

/-- Go `strings.Split(s, ":")`. -/
def Split (s : String) (sep : Char) : List String :=
  (splitChars sep s.data).map String.mk

/-! ## `cmd/beekeeper/cmd/check_ping.go` -/

namespace cmd

/-- The record `check.Actions`. -/
structure Actions where
  AddCount : Int
  StartCount : Int
  StopCount : Int
  DeleteCount : Int
  deriving DecidableEq, Repr

/-- The record `check.Update`. -/
structure Update where
  NodeGroup : String
  Actions : Actions
  deriving DecidableEq, Repr

/-- The type `check.Stage`, a slice of updates. -/
abbrev Stage := List Update

/-- The package variable `checkStages`. -/
def checkStages : List Stage :=
  [ [ { NodeGroup := "bee"
        Actions := { AddCount := 2, StartCount := 0, StopCount := 1, DeleteCount := 3 } },
      { NodeGroup := "drone"
        Actions := { AddCount := 4, StartCount := 0, StopCount := 3, DeleteCount := 1 } } ],
    [ { NodeGroup := "bee"
        Actions := { AddCount := 3, StartCount := 1, StopCount := 1, DeleteCount := 3 } },
      { NodeGroup := "drone"
        Actions := { AddCount := 2, StartCount := 1, StopCount := 2, DeleteCount := 1 } } ],
    [ { NodeGroup := "bee"
        Actions := { AddCount := 4, StartCount := 1, StopCount := 3, DeleteCount := 1 } },
      { NodeGroup := "drone"
        Actions := { AddCount := 3, StartCount := 1, StopCount := 2, DeleteCount := 1 } } ] ]

/-- Group sizes of a cluster, by group name. -/
abbrev Sizes := String → Int

/-- Modelled from the spec: the stage executor (`check.RunConcurrently`) is not
among the sources; the spec gives its effect on a group size as
`previousSize + addCount - deleteCount`. -/
def applyActions (size : Int) (a : Actions) : Int :=
  size + a.AddCount - a.DeleteCount

/-- Modelled from the spec: one update changes the size of the group it names
and of no other group. -/
def applyUpdate (sizes : Sizes) (u : Update) : Sizes :=
  fun g => if g = u.NodeGroup then applyActions (sizes g) u.Actions else sizes g

/-- Modelled from the spec: a stage is applied update by update. -/
def applyStage (sizes : Sizes) (stage : Stage) : Sizes :=
  stage.foldl applyUpdate sizes

/-- The spec's invariant for one update against the size its group has when the
stage is applied: counts are non-negative and start, stop and delete do not
exceed the size. -/
def updateOk (sizes : Sizes) (u : Update) : Bool :=
  decide (0 ≤ u.Actions.AddCount) && decide (0 ≤ u.Actions.StartCount)
    && decide (0 ≤ u.Actions.StopCount) && decide (0 ≤ u.Actions.DeleteCount)
    && decide (u.Actions.StartCount ≤ sizes u.NodeGroup)
    && decide (u.Actions.StopCount ≤ sizes u.NodeGroup)
    && decide (u.Actions.DeleteCount ≤ sizes u.NodeGroup)

/-- The invariant along a whole plan: every stage is checked against the sizes
left by the stages before it. -/
def planOk : Sizes → List Stage → Bool
  | _, [] => true
  | sizes, stage :: rest =>
    stage.all (updateOk sizes) && planOk (applyStage sizes stage) rest

/-- Modelled from the spec: a cluster (`bee.Cluster`, not among the sources) is a
mapping from group name to the ordered node names of the group. -/
abbrev Cluster := List (String × List String)

/-- Modelled from the spec: `bee.NewCluster` starts with no group. -/
def NewCluster : Cluster := []

/-- Modelled from the spec: `Cluster.AddNodeGroup` binds the name to a new,
empty group. -/
def AddNodeGroup (c : Cluster) (name : String) : Cluster :=
  c.filter (fun g => g.1 ≠ name) ++ [(name, [])]

/-- Modelled from the spec: the node names of a group, `none` for a name that
is not registered. -/
def groupNodes (c : Cluster) (name : String) : Option (List String) :=
  (c.find? (fun g => g.1 = name)).map Prod.snd

/-- The names of the registered groups. -/
def groupNames (c : Cluster) : List String := c.map Prod.fst

/-- The error `DuplicateNameError` of the spec. -/
def DuplicateNameError : GoErr := GoErr.New "DuplicateNameError"

/-- What the calls that `initCheckPing` makes outside the embedded code answer:
`setK8SClient`, and the platform side of `AddNode` and `AddStartNode` for a
group and a node name; `some code` is the failure `GoErr.ext code`. -/
structure Env where
  k8sErr : Option Nat
  nodeErr : String → String → Option Nat

/-- Modelled from the spec: `NodeGroup.AddNode` and `NodeGroup.AddStartNode`
register a member under `name`; they fail with `DuplicateNameError` when the
name is already in the group, and otherwise with whatever the platform
reports. -/
def AddNode (env : Env) (c : Cluster) (group name : String) : Except GoErr Cluster :=
  match groupNodes c group with
  | none => .error (GoErr.New "NotFoundError")
  | some nodes =>
    if name ∈ nodes then .error DuplicateNameError
    else
      match env.nodeErr group name with
      | some code => .error (GoErr.ext code)
      | none =>
        .ok (c.map (fun g => if g.1 = group then (g.1, g.2 ++ [name]) else g))

/-- The flags of the ping command that the setup reads. -/
structure Flags where
  startCluster : Bool
  bootnodeCount : Int
  nodeCount : Int
  image : String

/-- The defaults registered for the flags. -/
def defaultFlags : Flags :=
  { startCluster := false, bootnodeCount := 0, nodeCount := 1,
    image := "ethersphere/bee:latest" }

/-- The expression `strings.Split(image, ":")[1]`. -/
def versionLabel (image : String) : Outcome String :=
  match (Split image ':').get? 1 with
  | some v => .ok v
  | none => .panic "index out of range [1] with length 1"

/-- The name `fmt.Sprintf("%s-%d", group, i)`; for the bootnodes the source
writes `fmt.Sprintf("bootnode-%d", i)`, which is this with `"bootnode"`. -/
def nodeName (group : String) (i : Nat) : String := group ++ "-" ++ itoa i

/-- The indices `0 ≤ i < count` of a loop `for i := 0; i < count; i++`. -/
def loopIndices (count : Int) : List Nat := List.range count.toNat

/-- A run of `AddNode` (or `AddStartNode`) over the indices `l`, in that order,
up to the first error, which is wrapped by `wrap`. -/
def addEach (env : Env) (group stem : String) (wrap : Nat → GoErr → GoErr) :
    List Nat → Cluster → Outcome Cluster
  | [], c => .ok c
  | i :: rest, c =>
    match AddNode env c group (nodeName stem i) with
    | .error e => .error (wrap i e)
    | .ok c1 => addEach env group stem wrap rest c1

/-- The reuse path's loop `for i … { if err := ng.AddNode(name(i), …); err != nil
{ return fmt.Errorf("adding …-%d: %w", i, err) } }` over the indices `l`. -/
def addLoop (env : Env) (group stem : String) (l : List Nat) (c : Cluster) :
    Outcome Cluster :=
  addEach env group stem (fun i e => GoErr.Errorf ("adding " ++ stem ++ "-%d: %w") [i] e) l c

/-- The start path's `errgroup`: one `AddStartNode` task per index; the tasks
take effect in some order `sched`, and `Wait` hands back the first error, which
is wrapped as `fmt.Errorf("starting …: %w", err)`. -/
def startLoop (env : Env) (group stem what : String) (sched : List Nat) (c : Cluster) :
    Outcome Cluster :=
  addEach env group stem (fun _ e => GoErr.Errorf ("starting " ++ what ++ ": %w") [] e) sched c

/-- The order in which the tasks of the three `errgroup`s of the start path
take effect. -/
structure Schedule where
  bootnodes : List Nat
  bee : List Nat
  drone : List Nat

/-- A schedule runs every task of every group exactly once. -/
def Schedule.fair (s : Schedule) (f : Flags) : Prop :=
  s.bootnodes.Perm (loopIndices f.bootnodeCount) ∧ s.bee.Perm (loopIndices f.nodeCount)
    ∧ s.drone.Perm (loopIndices f.nodeCount)

/-- The schedule that runs the tasks in the order they were launched. -/
def Schedule.inOrder (f : Flags) : Schedule :=
  { bootnodes := loopIndices f.bootnodeCount, bee := loopIndices f.nodeCount,
    drone := loopIndices f.nodeCount }

/-- The branch `if startCluster { … }` of `RunE`.  The label is computed for
each of the three groups from the same image, so the first computation decides
for all; the key material `bSetup[i]` and the node options do not bear on the
names and are not embedded. -/
def startPath (env : Env) (f : Flags) (s : Schedule) (c0 : Cluster) : Outcome Cluster :=
  match versionLabel f.image with
  | .panic m => .panic m
  | .error e => .error e
  | .ok _ =>
    match startLoop env "bootnodes" "bootnode" "bootnodes" s.bootnodes
        (AddNodeGroup c0 "bootnodes") with
    | .panic m => .panic m
    | .error e => .error e
    | .ok c1 =>
      match startLoop env "bee" "bee" "bee nodes" s.bee (AddNodeGroup c1 "bee") with
      | .panic m => .panic m
      | .error e => .error e
      | .ok c2 =>
        startLoop env "drone" "drone" "drone nodes" s.drone (AddNodeGroup c2 "drone")

/-- The branch `else { … }` of `RunE`: the bootnodes are added first (without a
label, and only for a positive count), then the label is computed for "bee"
and "drone". -/
def reusePath (env : Env) (f : Flags) (c0 : Cluster) : Outcome Cluster :=
  match (if 0 < f.bootnodeCount then
      addLoop env "bootnodes" "bootnode" (loopIndices f.bootnodeCount)
        (AddNodeGroup c0 "bootnodes")
    else .ok c0) with
  | .panic m => .panic m
  | .error e => .error e
  | .ok c1 =>
    match versionLabel f.image with
    | .panic m => .panic m
    | .error e => .error e
    | .ok _ =>
      match addLoop env "bee" "bee" (loopIndices f.nodeCount) (AddNodeGroup c1 "bee") with
      | .panic m => .panic m
      | .error e => .error e
      | .ok c2 =>
        addLoop env "drone" "drone" (loopIndices f.nodeCount) (AddNodeGroup c2 "drone")

/-- The cluster that `RunE` has built when it reaches `check.RunConcurrently`
(or the error or panic that ends it before). -/
def RunE (env : Env) (f : Flags) (s : Schedule) : Outcome Cluster :=
  match env.k8sErr with
  | some code => .error (GoErr.Errorf "creating Kubernetes client: %w" [] (GoErr.ext code))
  | none =>
    if f.startCluster then startPath env f s NewCluster
    else reusePath env f NewCluster

/-- The error at the bottom of a chain of `%w` wrappings. -/
def rootCause : GoErr → GoErr
  | .Errorf _ _ inner => rootCause inner
  | e => e

/-- The text after the first `sep` up to the next `sep` or the end. -/
def afterFirst (sep : Char) (s : List Char) : List Char :=
  ((s.dropWhile (fun c => c ≠ sep)).drop 1).takeWhile (fun c => c ≠ sep)

/-- The sizes of the groups of a cluster (0 for a group that is not there). -/
def clusterSizes (c : Cluster) : Sizes :=
  fun g => ((groupNodes c g).getD []).length

/-- The sizes the ping command starts the plan with for node count `n`: the
groups "bee" and "drone" hold `n` nodes each. -/
def pingSizes (n : Int) : Sizes :=
  fun g => if g = "bee" ∨ g = "drone" then n else 0

end cmd


/-! ## `pkg/check/localpinning/bytes_found.go` -/

namespace localpinning

/-- The constant `swarm.ChunkSize` of the bee library. -/
def ChunkSize : Int := 4096

/-- The fields of `Options` that `CheckBytesFound` reads; all are Go `int`
(`Seed` is `int64`). -/
structure Options where
  StoreSize : Int
  StoreSizeDivisor : Int
  Seed : Int
  deriving DecidableEq, Repr

/-- A handle to one bee node (`bee.Node`). -/
abbrev Node := Nat

/-- A chunk or overlay address (`swarm.Address`). -/
abbrev Address := Nat

/-- The struct `bee.Cluster` as this check uses it: the slice `Nodes`. -/
structure Cluster where
  Nodes : List Node
  deriving DecidableEq, Repr

/-- The method `c.Size()`: the number of nodes. -/
def Cluster.Size (c : Cluster) : Int := c.Nodes.length

/-- The calls that `CheckBytesFound` makes outside its own body. -/
inductive Call where
  | Overlays
  | make (n : Nat)
  | Read (n : Nat)
  | addresses (buf : List Nat)
  | UploadBytes (node : Node) (buf : List Nat) (pin : Bool)
  | Sleep
  | HasChunkRetry (node : Node) (a : Address) (retries : Nat)
  | UnpinChunk (node : Node) (a : Address)
  deriving DecidableEq, Repr

/-- What a call answered: success, an `error` (for `make`: the runtime has no
memory for the buffer), or the boolean of `HasChunkRetry`. -/
inductive Answer where
  | ok
  | err (e : GoErr)
  | has (b : Bool)
  deriving DecidableEq, Repr

/-- One performed call with its answer. -/
structure Entry where
  call : Call
  answer : Answer
  deriving DecidableEq, Repr

/-- Everything outside `CheckBytesFound`, over a state `σ` that the calls may
read and change (node stores, the network, the process-wide source of
`math/rand`).

* `Overlays` is `c.Overlays(ctx)`; it yields one overlay per node.
* `Intn seed n` is `random.PseudoGenerator(seed).Intn(n)`, which lies in
  `[0, n)` for `n > 0`.
* `Alloc s n` tells whether, in state `s`, the Go runtime has the memory for a
  buffer of `n` bytes; `make([]byte, n)` asks it for every `n` within the
  limit `maxAlloc`.
* `Read` is the package-level `math/rand.Read`; on success it gives the byte
  written at each index of the buffer. -/
structure World (σ : Type) where
  Overlays : σ → Cluster → Except GoErr (List Address) × σ
  Overlays_length : ∀ s c l s1, Overlays s c = (.ok l, s1) → l.length = c.Nodes.length
  Intn : Int → Int → Nat
  Intn_lt : ∀ seed n, 0 < n → (Intn seed n : Int) < n
  Alloc : σ → Nat → Bool
  Read : σ → Nat → Except GoErr (Nat → Nat) × σ
  addresses : List Nat → Except GoErr (List Address)
  UploadBytes : σ → Node → List Nat → Bool → Option GoErr × σ
  HasChunkRetry : σ → Node → Address → Nat → Except GoErr Bool × σ
  UnpinChunk : σ → Node → Address → Option GoErr × σ

/-- The result of a run: how it ended, the calls it made in order, and the
state it left. -/
structure Run (σ : Type) where
  outcome : Outcome Unit
  log : List Entry
  final : σ

/-- A buffer of `n` bytes after `Read` has filled it. -/
def fill (n : Nat) (f : Nat → Nat) : List Nat := (List.range n).map f

/-- The expression `(o.StoreSize / o.StoreSizeDivisor) * swarm.ChunkSize`. -/
def payloadSize (o : Options) : Int :=
  goMul (goDiv o.StoreSize o.StoreSizeDivisor) ChunkSize

/-- The constant `maxAlloc` of the Go runtime, the largest size of one
allocation: `1 << 48` bytes on linux/amd64 (and on the other 64-bit Linux
targets).  `runtime.makeslice` panics with "len out of range" for a `[]byte`
longer than this. -/
def maxAlloc : Int := 2 ^ 48

/-- The fatal error of the runtime when the memory for a buffer cannot be
had. -/
def outOfMemory : GoErr := GoErr.New "runtime: out of memory"

/-- The loop `for i := 0; i < o.StoreSizeDivisor; i++ { rand.Read(buf);
UploadBytes(ctx, buf, false) }`, `k` iterations to go. -/
def floodLoop {σ : Type} (w : World σ) (pivot : Nat) (node : Node) (size : Nat) :
    Nat → σ → Run σ
  | 0, s => ⟨.ok (), [], s⟩
  | k + 1, s =>
    match w.Read s size with
    | (.error e, s1) =>
      ⟨.error (GoErr.Errorf "rand buffer: %w" [] e), [⟨.Read size, .err e⟩], s1⟩
    | (.ok f, s1) =>
      match w.UploadBytes s1 node (fill size f) false with
      | (some e, s2) =>
        ⟨.error (GoErr.Errorf "node %d: upload bytes: %w" [pivot] e),
          [⟨.Read size, .ok⟩, ⟨.UploadBytes node (fill size f) false, .err e⟩], s2⟩
      | (none, s2) =>
        let r := floodLoop w pivot node size k s2
        ⟨r.outcome,
          ⟨.Read size, .ok⟩ :: ⟨.UploadBytes node (fill size f) false, .ok⟩ :: r.log,
          r.final⟩

/-- The loop `for _, a := range addrs { has, err := HasChunkRetry(ctx, a, 1); … }`. -/
def hasLoop {σ : Type} (w : World σ) (node : Node) : List Address → σ → Run σ
  | [], s => ⟨.ok (), [], s⟩
  | a :: rest, s =>
    match w.HasChunkRetry s node a 1 with
    | (.error e, s1) =>
      ⟨.error (GoErr.Errorf "node has chunk: %w" [] e),
        [⟨.HasChunkRetry node a 1, .err e⟩], s1⟩
    | (.ok false, s1) =>
      ⟨.error (GoErr.New "pinning node: chunk not found"),
        [⟨.HasChunkRetry node a 1, .has false⟩], s1⟩
    | (.ok true, s1) =>
      let r := hasLoop w node rest s1
      ⟨r.outcome, ⟨.HasChunkRetry node a 1, .has true⟩ :: r.log, r.final⟩

/-- The deferred function: `UnpinChunk` for every address; an error is offered
to the channel `errc`, which nobody reads, and so is dropped. -/
def unpinLoop {σ : Type} (w : World σ) (node : Node) : List Address → σ → List Entry × σ
  | [], s => ([], s)
  | a :: rest, s =>
    match w.UnpinChunk s node a with
    | (some e, s1) =>
      let r := unpinLoop w node rest s1
      (⟨.UnpinChunk node a, .err e⟩ :: r.1, r.2)
    | (none, s1) =>
      let r := unpinLoop w node rest s1
      (⟨.UnpinChunk node a, .ok⟩ :: r.1, r.2)

/-- The part of `CheckBytesFound` after the `defer` statement: the pinned
upload, the unpinned uploads, the sleep and the final look-up. -/
def afterDefer {σ : Type} (w : World σ) (o : Options) (pivot : Nat) (node : Node)
    (size : Nat) (buf : List Nat) (addrs : List Address) (s : σ) : Run σ :=
  match w.UploadBytes s node buf true with
  | (some e, s1) =>
    ⟨.error (GoErr.Errorf "node %d: upload bytes: %w" [pivot] e),
      [⟨.UploadBytes node buf true, .err e⟩], s1⟩
  | (none, s1) =>
    let flood := floodLoop w pivot node size o.StoreSizeDivisor.toNat s1
    match flood.outcome with
    | .panic m => ⟨.panic m, ⟨.UploadBytes node buf true, .ok⟩ :: flood.log, flood.final⟩
    | .error e => ⟨.error e, ⟨.UploadBytes node buf true, .ok⟩ :: flood.log, flood.final⟩
    | .ok _ =>
      let look := hasLoop w node addrs flood.final
      ⟨look.outcome,
        ⟨.UploadBytes node buf true, .ok⟩ :: (flood.log ++ ⟨.Sleep, .ok⟩ :: look.log),
        look.final⟩

/-- The function `CheckBytesFound`.

The run-time panics of the body are kept: `rnd.Intn` on a size that is not
positive, the division by a zero divisor, and `make([]byte, size)`, which
panics in `runtime.makeslice` when `size` is negative or above `maxAlloc`.
Within that range the allocation is a request to the runtime, which the world
answers: when the memory cannot be had the runtime stops the program with
"fatal error: runtime: out of memory", before anything is uploaded; the run
then ends as a panic, and the request is logged as failed.  The index
expressions `c.Nodes[pivot]` and `overlays[pivot]` are in range by the
contracts of `Intn` and `Overlays` (theorem `pivot_in_range`), so the branch
for an index out of range is never taken. -/
def CheckBytesFound {σ : Type} (w : World σ) (c : Cluster) (o : Options) (s0 : σ) : Run σ :=
  match w.Overlays s0 c with
  | (.error e, s1) => ⟨.error e, [⟨.Overlays, .err e⟩], s1⟩
  | (.ok overlays, s1) =>
    if c.Size ≤ 0 then ⟨.panic "invalid argument to Intn", [⟨.Overlays, .ok⟩], s1⟩
    else if o.StoreSizeDivisor = 0 then
      ⟨.panic "integer divide by zero", [⟨.Overlays, .ok⟩], s1⟩
    else if payloadSize o < 0 ∨ maxAlloc < payloadSize o then
      ⟨.panic "makeslice: len out of range", [⟨.Overlays, .ok⟩], s1⟩
    else
      let pivot := w.Intn o.Seed c.Size
      let size := (payloadSize o).toNat
      if w.Alloc s1 size = false then
        ⟨.panic "fatal error: runtime: out of memory",
          [⟨.Overlays, .ok⟩, ⟨.make size, .err outOfMemory⟩], s1⟩
      else
        match w.Read s1 size with
        | (.error e, s2) =>
          ⟨.error (GoErr.Errorf "rand buffer: %w" [] e),
            [⟨.Overlays, .ok⟩, ⟨.make size, .ok⟩, ⟨.Read size, .err e⟩], s2⟩
        | (.ok f, s2) =>
          let buf := fill size f
          match w.addresses buf with
          | .error e =>
            ⟨.error e,
              [⟨.Overlays, .ok⟩, ⟨.make size, .ok⟩, ⟨.Read size, .ok⟩,
                ⟨.addresses buf, .err e⟩], s2⟩
          | .ok addrs =>
            match c.Nodes.get? pivot, overlays.get? pivot with
            | some node, some _ =>
              let body := afterDefer w o pivot node size buf addrs s2
              let cleanup := unpinLoop w node addrs body.final
              ⟨body.outcome,
                [⟨.Overlays, .ok⟩, ⟨.make size, .ok⟩, ⟨.Read size, .ok⟩,
                  ⟨.addresses buf, .ok⟩] ++ body.log ++ cleanup.1,
                cleanup.2⟩
            | _, _ =>
              ⟨.panic "index out of range",
                [⟨.Overlays, .ok⟩, ⟨.make size, .ok⟩, ⟨.Read size, .ok⟩,
                  ⟨.addresses buf, .ok⟩], s2⟩

/-- The upload that an entry records, if it is one: node, number of bytes,
pinned or not. -/
def Entry.upload (e : Entry) : Option (Node × Nat × Bool) :=
  match e.call with
  | .UploadBytes node buf pin => some (node, buf.length, pin)
  | _ => none

/-- The uploads of a log, in order: node, number of bytes, pinned or not. -/
def uploads (log : List Entry) : List (Node × Nat × Bool) := log.filterMap Entry.upload

/-- The payload that an entry uploads, if it is an upload. -/
def Entry.payload (e : Entry) : Option (List Nat × Bool) :=
  match e.call with
  | .UploadBytes _ buf pin => some (buf, pin)
  | _ => none

/-- The payloads of the uploads of a log, in order. -/
def payloads (log : List Entry) : List (List Nat × Bool) := log.filterMap Entry.payload

/-- The number of bytes of the unpinned uploads of a log. -/
def unpinnedBytes (log : List Entry) : Nat :=
  (((uploads log).filter (fun u => !u.2.2)).map (fun u => u.2.1)).sum

/-- The pinned upload that an entry records as done without error. -/
def Entry.pinnedOk (e : Entry) : Option (Node × List Nat) :=
  match e with
  | ⟨.UploadBytes node buf true, .ok⟩ => some (node, buf)
  | _ => none

/-- The pinned uploads of a log that succeeded. -/
def pinnedOk (log : List Entry) : List (Node × List Nat) := log.filterMap Entry.pinnedOk

/-- The entry is an unpinned upload that succeeded. -/
def Entry.unpinnedOk (e : Entry) : Bool :=
  match e with
  | ⟨.UploadBytes _ _ false, .ok⟩ => true
  | _ => false

/-- The number of unpinned uploads of a log that succeeded. -/
def unpinnedOk (log : List Entry) : Nat := (log.filter Entry.unpinnedOk).length

/-- The chunk that an entry reports, without error, as present on a node. -/
def Entry.confirmed (e : Entry) : Option (Node × Address) :=
  match e with
  | ⟨.HasChunkRetry node a _, .has true⟩ => some (node, a)
  | _ => none

/-- The chunks that a log reports, without error, as present, in order. -/
def confirmed (log : List Entry) : List (Node × Address) := log.filterMap Entry.confirmed

/-- The entry reports a chunk as missing. -/
def Entry.missing (e : Entry) : Bool :=
  match e with
  | ⟨.HasChunkRetry _ _ _, .has false⟩ => true
  | _ => false

/-- A call failed: it answered with an `error`, or the runtime could not
serve it. -/
def Entry.failed (e : Entry) : Bool :=
  match e.answer with
  | .err _ => true
  | _ => false

/-- The entry is a call of the deferred clean-up. -/
def Entry.isUnpin (e : Entry) : Bool :=
  match e.call with
  | .UnpinChunk _ _ => true
  | _ => false

/-- An entry of the flood: a `Read` or an unpinned upload. -/
def Entry.ofFlood (node : Node) (size : Nat) (e : Entry) : Prop :=
  (∃ a, e = ⟨.Read size, a⟩) ∨ ∃ f a, e = ⟨.UploadBytes node (fill size f) false, a⟩

/-- An entry of the final look-up. -/
def Entry.ofLook (node : Node) (e : Entry) : Prop :=
  ∃ a ans, e = ⟨.HasChunkRetry node a 1, ans⟩

/-- An entry of the deferred clean-up. -/
def Entry.ofCleanup (node : Node) (e : Entry) : Prop :=
  ∃ a ans, e = ⟨.UnpinChunk node a, ans⟩

/-- The entries before the `defer`. -/
def preamble (size : Nat) (buf : List Nat) : List Entry :=
  [⟨.Overlays, .ok⟩, ⟨.make size, .ok⟩, ⟨.Read size, .ok⟩, ⟨.addresses buf, .ok⟩]

/-- The uploads that the claim on the pinned-content check names: one pinned
upload of `(StoreSize / StoreSizeDivisor) * ChunkSize` bytes to the pivot node,
then `StoreSizeDivisor` unpinned uploads of that size to the same node. -/
def pinnedThenFlood (c : Cluster) (o : Options) (pivot : Nat) (log : List Entry) : Prop :=
  ∃ node, c.Nodes.get? pivot = some node ∧
    uploads log =
      (node, (Int.tdiv o.StoreSize o.StoreSizeDivisor * ChunkSize).toNat, true) ::
        List.replicate o.StoreSizeDivisor.toNat
          (node, (Int.tdiv o.StoreSize o.StoreSizeDivisor * ChunkSize).toNat, false)

/-- The steps that the claim on the result of the check names all took place
and succeeded: the overlay look-up, the generation of the payload, the
computation of its addresses, the pinned upload, every one of the
`StoreSizeDivisor` unpinned uploads, and `HasChunkRetry` answered without
error that the pivot node has every chunk address of the pinned payload. -/
def allSucceeded {σ : Type} (w : World σ) (c : Cluster) (o : Options) (log : List Entry) :
    Prop :=
  (⟨.Overlays, .ok⟩ : Entry) ∈ log ∧ (∃ n, (⟨.Read n, .ok⟩ : Entry) ∈ log) ∧
    ∃ node buf addrs, c.Nodes.get? (w.Intn o.Seed c.Size) = some node ∧
      (⟨.addresses buf, .ok⟩ : Entry) ∈ log ∧ w.addresses buf = .ok addrs ∧
      pinnedOk log = [(node, buf)] ∧ unpinnedOk log = o.StoreSizeDivisor.toNat ∧
      confirmed log = addrs.map (fun a => (node, a))

/-- A world in which no call fails: the overlays are the node handles, the
seeded generator always draws 0, memory is always there, the process-wide
source of `math/rand` is a stream of bytes of which the state is the position,
every payload has one address per 4096 bytes, and every node stores and finds
everything. -/
def streamWorld : World Nat where
  Overlays := fun s c => (.ok c.Nodes, s)
  Overlays_length := by
    intro s c l s1 h
    cases h
    rfl
  Intn := fun _ _ => 0
  Intn_lt := by
    intro _ n h
    simpa using h
  Alloc := fun _ _ => true
  Read := fun s n => (.ok (fun i => (s + i) % 256), s + n)
  addresses := fun buf => .ok (List.range (buf.length / 4096))
  UploadBytes := fun s _ _ _ => (none, s)
  HasChunkRetry := fun s _ _ _ => (.ok true, s)
  UnpinChunk := fun s _ _ => (none, s)

/-- A cluster of one node. -/
def oneNode : Cluster := ⟨[0]⟩

end localpinning

/-! ## `pkg/check/soc/soc.go` -/

namespace soc

/-- The constant `soc.IdSize` of the bee library. -/
def IdSize : Nat := 32

/-- The constant `soc.SignatureSize` of the bee library. -/
def SignatureSize : Nat := 65

/-- The struct `Options`. -/
structure Options where
  NodeGroup : String
  deriving DecidableEq, Repr

/-- A private key, a public key, a chunk reference: values of the libraries
that the check only passes on. -/
abbrev Key := Nat

/-- The calls that `Check` makes outside its own body. -/
inductive Call where
  | GenerateSecp256k1Key
  | cacNew (payload : List Nat)
  | randRead (n : Nat)
  | Sign (key : Key) (id : List Nat) (chunk : List Nat)
  | PublicKey (key : Key)
  | NewEthereumAddress (pub : Key)
  | UploadSOC (node : String) (owner id sig : String) (data : List Nat)
  | DownloadChunk (node : String) (ref : Nat)
  deriving DecidableEq, Repr

/-- What a call answered: success, an `error`, or bytes that came back. -/
inductive Answer where
  | ok
  | err (e : GoErr)
  | bytes (b : List Nat)
  deriving DecidableEq, Repr

/-- One performed call with its answer. -/
structure Entry where
  call : Call
  answer : Answer
  deriving DecidableEq, Repr

/-- Everything outside `Check`.  Every call is made at most once in a run, so
its answer is a function of its arguments.

* `NodesSorted g` is `c.NodeGroup(g).NodesSorted()`; `none` stands for the nil
  group of a name that is not registered.
* `cacNew` gives the data of the content-addressed chunk (`ch.Data()`).
* `randRead n` is `crypto/rand.Read` on a key of `n` bytes.
* `Sign` is `soc.New(id, ch).Sign(signer)` and gives `sch.Data()`. -/
structure Env where
  NodesSorted : String → Option (List String)
  GenerateSecp256k1Key : Except GoErr Key
  cacNew : List Nat → Except GoErr (List Nat)
  randRead : Nat → Except GoErr (List Nat)
  Sign : Key → List Nat → List Nat → Except GoErr (List Nat)
  PublicKey : Key → Except GoErr Key
  NewEthereumAddress : Key → Except GoErr (List Nat)
  UploadSOC : String → String → String → String → List Nat → Except GoErr Nat
  DownloadChunk : String → Nat → Except GoErr (List Nat)

/-- The result of a run: how it ended and the calls it made, in order. -/
structure Run where
  outcome : Outcome Unit
  log : List Entry
  deriving DecidableEq, Repr

/-- One hexadecimal digit, lower case. -/
def hexDigit (d : Nat) : Char :=
  if d < 10 then Char.ofNat (48 + d) else Char.ofNat (87 + d)

/-- Go `hex.EncodeToString`. -/
def EncodeToString (b : List Nat) : String :=
  String.mk (b.flatMap (fun x => [hexDigit (x / 16), hexDigit (x % 16)]))

/-- The function `randomID`: a key of 32 bytes from `crypto/rand`. -/
def randomID (env : Env) : Except GoErr (List Nat) := env.randRead 32

/-- The literal `[]byte("Hello Swarm :)")`. -/
def payload : List Nat := "Hello Swarm :)".data.map Char.toNat

/-- The error of a retrieved chunk that differs from the signed one. -/
def mismatch : GoErr := GoErr.New "soc: retrieved chunk data does NOT match soc chunk"

/-- The upload, the download and the comparison at the end of `Check`. -/
def roundTrip (env : Env) (node owner id sig : String) (chData chunkData : List Nat)
    (log : List Entry) : Run :=
  match env.UploadSOC node owner id sig chData with
  | .error e => ⟨.error e, log ++ [⟨.UploadSOC node owner id sig chData, .err e⟩]⟩
  | .ok ref =>
    match env.DownloadChunk node ref with
    | .error e =>
      ⟨.error e, log ++ [⟨.UploadSOC node owner id sig chData, .ok⟩,
        ⟨.DownloadChunk node ref, .err e⟩]⟩
    | .ok retrieved =>
      if retrieved ≠ chunkData then
        ⟨.error mismatch, log ++ [⟨.UploadSOC node owner id sig chData, .ok⟩,
          ⟨.DownloadChunk node ref, .bytes retrieved⟩]⟩
      else
        ⟨.ok (), log ++ [⟨.UploadSOC node owner id sig chData, .ok⟩,
          ⟨.DownloadChunk node ref, .bytes retrieved⟩]⟩

/-- The part of `Check` after the chunk is signed: the signature is cut out of
the chunk data (a slice expression that panics on data shorter than 97 bytes;
the capacity of the slice is taken to be its length), the owner is derived, the
first node of the group is taken. -/
def afterSign (env : Env) (sortedNodes : List String) (key : Key)
    (chData idBytes chunkData : List Nat) (log : List Entry) : Run :=
  if chunkData.length < IdSize + SignatureSize then
    ⟨.panic "slice bounds out of range", log⟩
  else
    let signatureBytes := (chunkData.drop IdSize).take SignatureSize
    match env.PublicKey key with
    | .error e => ⟨.error e, log ++ [⟨.PublicKey key, .err e⟩]⟩
    | .ok publicKey =>
      match env.NewEthereumAddress publicKey with
      | .error e =>
        ⟨.error e,
          log ++ [⟨.PublicKey key, .ok⟩, ⟨.NewEthereumAddress publicKey, .err e⟩]⟩
      | .ok ownerBytes =>
        match sortedNodes with
        | [] =>
          ⟨.panic "index out of range [0] with length 0",
            log ++ [⟨.PublicKey key, .ok⟩, ⟨.NewEthereumAddress publicKey, .ok⟩]⟩
        | nodeName :: _ =>
          roundTrip env nodeName (EncodeToString ownerBytes) (EncodeToString idBytes)
            (EncodeToString signatureBytes) chData chunkData
            (log ++ [⟨.PublicKey key, .ok⟩, ⟨.NewEthereumAddress publicKey, .ok⟩])

/-- The function `Check`; `pusher` and `pushMetrics` are not used by its body. -/
def Check (env : Env) (o : Options) : Run :=
  match env.NodesSorted o.NodeGroup with
  | none => ⟨.panic "invalid memory address or nil pointer dereference", []⟩
  | some sortedNodes =>
    match env.GenerateSecp256k1Key with
    | .error e => ⟨.error e, [⟨.GenerateSecp256k1Key, .err e⟩]⟩
    | .ok privKey =>
      match env.cacNew payload with
      | .error e =>
        ⟨.error e, [⟨.GenerateSecp256k1Key, .ok⟩, ⟨.cacNew payload, .err e⟩]⟩
      | .ok chData =>
        match randomID env with
        | .error e =>
          ⟨.error e, [⟨.GenerateSecp256k1Key, .ok⟩, ⟨.cacNew payload, .ok⟩,
            ⟨.randRead 32, .err e⟩]⟩
        | .ok idBytes =>
          match env.Sign privKey idBytes chData with
          | .error e =>
            ⟨.error e, [⟨.GenerateSecp256k1Key, .ok⟩, ⟨.cacNew payload, .ok⟩,
              ⟨.randRead 32, .ok⟩, ⟨.Sign privKey idBytes chData, .err e⟩]⟩
          | .ok chunkData =>
            afterSign env sortedNodes privKey chData idBytes chunkData
              [⟨.GenerateSecp256k1Key, .ok⟩, ⟨.cacNew payload, .ok⟩,
                ⟨.randRead 32, .ok⟩,
                ⟨.Sign privKey idBytes chData, .bytes chunkData⟩]

/-- The step performed and succeeded: the log holds a call of the kind `p`
that did not answer with an `error`. -/
def succeeded (p : Call → Bool) (log : List Entry) : Bool :=
  log.any (fun e => p e.call && match e.answer with
    | .err _ => false
    | _ => true)

/-- Key generation. -/
def isKeyGen : Call → Bool
  | .GenerateSecp256k1Key => true
  | _ => false

/-- Construction of the content-addressed chunk. -/
def isChunk : Call → Bool
  | .cacNew _ => true
  | _ => false

/-- Signing of the single-owner chunk. -/
def isSign : Call → Bool
  | .Sign _ _ _ => true
  | _ => false

/-- The upload of the signed chunk. -/
def isUpload : Call → Bool
  | .UploadSOC _ _ _ _ _ => true
  | _ => false

/-- The download of the uploaded chunk. -/
def isDownload : Call → Bool
  | .DownloadChunk _ _ => true
  | _ => false

/-- The data `sch.Data()` of the signed chunk, as the log holds it. -/
def signedData : List Entry → Option (List Nat)
  | [] => none
  | ⟨.Sign _ _ _, .bytes d⟩ :: _ => some d
  | _ :: rest => signedData rest

/-- The bytes that the download returned, as the log holds them. -/
def downloaded : List Entry → Option (List Nat)
  | [] => none
  | ⟨.DownloadChunk _ _, .bytes d⟩ :: _ => some d
  | _ :: rest => downloaded rest

end soc


/-! ## Concrete environments -/

namespace cmd

/-- An environment in which no call fails. -/
def quietEnv : Env := { k8sErr := none, nodeErr := fun _ _ => none }

/-- An environment in which the Kubernetes client cannot be created. -/
def noK8sEnv : Env := { k8sErr := some 1, nodeErr := fun _ _ => none }

/-- Flags of a run on the start path: two bootnodes, three nodes. -/
def startFlags : Flags :=
  { startCluster := true, bootnodeCount := 2, nodeCount := 3,
    image := "ethersphere/bee:latest" }

/-- Flags of a run on the reuse path with an image that has no colon. -/
def noColonFlags : Flags :=
  { startCluster := false, bootnodeCount := 2, nodeCount := 1, image := "bee" }

/-- The panic of `strings.Split(image, ":")[1]` on an image without a colon. -/
def labelPanic : Outcome Cluster := .panic "index out of range [1] with length 1"

/-- Two clusters have the same groups and, in each group, the same node
names. -/
def sameModel (c1 c2 : Cluster) : Prop :=
  (∀ g, g ∈ groupNames c1 ↔ g ∈ groupNames c2) ∧
    ∀ g name, name ∈ (groupNodes c1 g).getD [] ↔ name ∈ (groupNodes c2 g).getD []

end cmd

namespace localpinning

/-- The scenario of the spec: a store of 48 chunks, divisor 12. -/
def scenarioOptions : Options := { StoreSize := 48, StoreSizeDivisor := 12, Seed := 0 }

/-- Options whose payload size leaves the range of `int`: 2^52 + 1 chunks of
4096 bytes are 2^64 + 4096 bytes, which wraps to 4096. -/
def wrapOptions : Options := { StoreSize := 2 ^ 52 + 1, StoreSizeDivisor := 1, Seed := 0 }

/-- Options with a store smaller than the divisor. -/
def smallOptions : Options := { StoreSize := 5, StoreSizeDivisor := 12, Seed := 0 }

/-- Options of one chunk in one upload, with a seed. -/
def seedOptions : Options := { StoreSize := 1, StoreSizeDivisor := 1, Seed := 7 }

/-- Options whose payload size fits `int` but not one allocation: 2^40 chunks
of 4096 bytes are 2^52 bytes, above `maxAlloc`. -/
def hugeOptions : Options := { StoreSize := 2 ^ 40, StoreSizeDivisor := 1, Seed := 0 }

/-- The world `streamWorld` after the pivot node has lost the chunk with
address 2: `HasChunkRetry` answers, without error, that it is not there. -/
def lossyWorld : World Nat :=
  { streamWorld with HasChunkRetry := fun s _ a _ => (.ok (decide (a ≠ 2)), s) }

/-- The error with which `UnpinChunk` fails in `stuckWorld`. -/
def unpinFailure : GoErr := GoErr.New "unpin chunk: node unreachable"

/-- The world `streamWorld` with a node on which every `UnpinChunk` fails. -/
def stuckWorld : World Nat :=
  { streamWorld with UnpinChunk := fun s _ _ => (some unpinFailure, s) }

end localpinning

namespace localpinning

/-- A world in which no call ever answers with an error. -/
def World.quiet {σ : Type} (w : World σ) : Prop :=
  (∀ s c, ∃ ov, (w.Overlays s c).1 = .ok ov) ∧
    (∀ s n, w.Alloc s n = true) ∧
    (∀ s n, ∃ f, (w.Read s n).1 = .ok f) ∧
    (∀ buf, ∃ a, w.addresses buf = .ok a) ∧
    (∀ s node buf pin, (w.UploadBytes s node buf pin).1 = none) ∧
    (∀ s node a r, ∃ b, (w.HasChunkRetry s node a r).1 = .ok b) ∧
    (∀ s node a, (w.UnpinChunk s node a).1 = none)

end localpinning

namespace soc

/-- An environment in which no call fails and the node returns the signed chunk
that was uploaded: identity, signature, content. -/
def echoEnv : Env where
  NodesSorted := fun _ => some ["bee-0"]
  GenerateSecp256k1Key := .ok 1
  cacNew := fun p => .ok p
  randRead := fun n => .ok (List.replicate n 0)
  Sign := fun _ id ch => .ok (id ++ List.replicate 65 0 ++ ch)
  PublicKey := fun k => .ok k
  NewEthereumAddress := fun _ => .ok (List.replicate 20 0)
  UploadSOC := fun _ _ _ _ _ => .ok 0
  DownloadChunk := fun _ _ => .ok (List.replicate 32 0 ++ List.replicate 65 0 ++ payload)

/-- The same environment with a node that returns no bytes. -/
def emptyEnv : Env := { echoEnv with DownloadChunk := fun _ _ => .ok [] }

end soc

/-! ## Decimal names -/

theorem digitChar_value (d : Nat) (h : d < 10) : (digitChar d).toNat - 48 = d := by
  interval_cases d <;> decide

theorem formatBits_append (fuel : Nat) : ∀ (u : Nat) (acc : List Char),
    formatBits fuel u acc = formatBits fuel u [] ++ acc := by
  induction fuel with
  | zero => intro u acc; simp [formatBits]
  | succ k ih =>
    intro u acc
    unfold formatBits
    by_cases h : u < 10
    · simp [h]
    · simp only [h, if_false]
      rw [ih (u / 10) (digitChar (u % 10) :: acc), ih (u / 10) [digitChar (u % 10)]]
      simp

theorem decodeDigits_snoc (l : List Char) (c : Char) :
    decodeDigits (l ++ [c]) = decodeDigits l * 10 + (c.toNat - 48) := by
  simp [decodeDigits, List.foldl_append]

theorem decode_formatBits (fuel : Nat) : ∀ u : Nat, u < fuel →
    decodeDigits (formatBits fuel u []) = u := by
  induction fuel with
  | zero => intro u h; omega
  | succ k ih =>
    intro u h
    unfold formatBits
    by_cases h10 : u < 10
    · simp [h10, decodeDigits, digitChar_value u h10]
    · simp only [h10, if_false]
      rw [formatBits_append, decodeDigits_snoc, ih (u / 10) (by omega),
        digitChar_value (u % 10) (by omega)]
      omega

theorem itoa_injective : Function.Injective itoa := by
  intro a b h
  have h1 : formatBits (a + 1) a [] = formatBits (b + 1) b [] := congrArg String.data h
  have h2 := congrArg decodeDigits h1
  rwa [decode_formatBits (a + 1) a (by omega), decode_formatBits (b + 1) b (by omega)] at h2

theorem nodeName_injective (stem : String) : Function.Injective (cmd.nodeName stem) := by
  intro a b h
  apply itoa_injective
  have h1 := congrArg String.data h
  simp only [cmd.nodeName, String.data_append, List.append_assoc] at h1
  have h2 := List.append_cancel_left (List.append_cancel_left h1)
  exact String.ext h2

/-! ## The modelled cluster -/

namespace cmd

theorem groupNodes_nil (g : String) : groupNodes [] g = none := rfl

theorem groupNodes_cons (x : String × List String) (c : Cluster) (g : String) :
    groupNodes (x :: c) g = if x.1 = g then some x.2 else groupNodes c g := by
  unfold groupNodes
  by_cases h : x.1 = g <;> simp [List.find?, h]

theorem groupNodes_AddNodeGroup_self (c : Cluster) (name : String) :
    groupNodes (AddNodeGroup c name) name = some [] := by
  unfold AddNodeGroup
  induction c with
  | nil => simp [groupNodes_cons]
  | cons x c ih =>
    by_cases h : x.1 = name
    · simpa [List.filter, h] using ih
    · simpa [List.filter, h, groupNodes_cons] using ih

theorem groupNodes_AddNodeGroup_other (c : Cluster) (name g : String) (hg : g ≠ name) :
    groupNodes (AddNodeGroup c name) g = groupNodes c g := by
  unfold AddNodeGroup
  induction c with
  | nil => simp [groupNodes_cons, groupNodes_nil, Ne.symm hg]
  | cons x c ih =>
    rw [groupNodes_cons]
    by_cases h : x.1 = name
    · have hx : ¬ x.1 = g := by rw [h]; exact Ne.symm hg
      rw [if_neg hx, ← ih]
      simp [List.filter_cons, h]
    · have hf : List.filter (fun y : String × List String => decide (y.1 ≠ name)) (x :: c)
          = x :: List.filter (fun y : String × List String => decide (y.1 ≠ name)) c := by
        simp [List.filter_cons, h]
      rw [hf, List.cons_append, groupNodes_cons, ih]

theorem groupNames_AddNodeGroup (c : Cluster) (name : String) :
    groupNames (AddNodeGroup c name) = (groupNames c).filter (fun g => g ≠ name) ++ [name] := by
  unfold AddNodeGroup groupNames
  induction c with
  | nil => simp
  | cons x c ih =>
    by_cases h : x.1 = name
    · simpa [List.filter, h] using ih
    · simpa [List.filter, h] using ih

theorem groupNodes_extend (c : Cluster) (group name g : String) :
    groupNodes (c.map (fun x => if x.1 = group then (x.1, x.2 ++ [name]) else x)) g
      = if g = group then (groupNodes c g).map (fun ns => ns ++ [name]) else groupNodes c g := by
  induction c with
  | nil => simp [groupNodes_nil]
  | cons x c ih =>
    simp only [List.map_cons, groupNodes_cons, ih]
    by_cases hx : x.1 = group
    · by_cases hg : g = group
      · simp [hx, hg]
      · have : ¬ group = g := fun h => hg h.symm
        simp [hx, hg, this]
    · by_cases hg : g = group
      · have : ¬ x.1 = g := by rw [hg]; exact hx
        simp [hx, hg]
      · by_cases hxg : x.1 = g <;> simp [hx, hg, hxg]

theorem groupNames_extend (c : Cluster) (group name : String) :
    groupNames (c.map (fun x => if x.1 = group then (x.1, x.2 ++ [name]) else x))
      = groupNames c := by
  unfold groupNames
  induction c with
  | nil => rfl
  | cons x c ih =>
    by_cases hx : x.1 = group <;> simp_all

/-- What one `AddNode` does on a group that is there and does not hold the
name: the platform's error, or the group extended by the name. -/
theorem AddNode_fresh (env : Env) (c : Cluster) (group name : String) (ns : List String)
    (hc : groupNodes c group = some ns) (hn : name ∉ ns) :
    (∃ code, env.nodeErr group name = some code ∧
        AddNode env c group name = .error (GoErr.ext code)) ∨
      (env.nodeErr group name = none ∧ ∃ c1, AddNode env c group name = .ok c1 ∧
        groupNodes c1 group = some (ns ++ [name]) ∧
        (∀ g, g ≠ group → groupNodes c1 g = groupNodes c g) ∧
        groupNames c1 = groupNames c) := by
  unfold AddNode
  rw [hc]
  simp only [hn, if_false]
  cases he : env.nodeErr group name with
  | some code => left; exact ⟨code, rfl, rfl⟩
  | none =>
    right
    refine ⟨rfl, _, rfl, ?_, ?_, groupNames_extend c group name⟩
    · rw [groupNodes_extend, hc]; simp
    · intro g hg
      rw [groupNodes_extend]; simp [hg]

/-- The loop over fresh, pairwise distinct names: it ends with the first error
of the platform, or with the group extended by all the names. -/
theorem addEach_spec (env : Env) (group stem : String) (wrap : Nat → GoErr → GoErr) :
    ∀ (l : List Nat) (c : Cluster) (ns : List String),
      groupNodes c group = some ns → (∀ i ∈ l, nodeName stem i ∉ ns) →
      (l.map (nodeName stem)).Nodup →
      (∃ i code, i ∈ l ∧ env.nodeErr group (nodeName stem i) = some code ∧
          addEach env group stem wrap l c = .error (wrap i (GoErr.ext code))) ∨
        ((∀ i ∈ l, env.nodeErr group (nodeName stem i) = none) ∧
          ∃ c1, addEach env group stem wrap l c = .ok c1 ∧
          groupNodes c1 group = some (ns ++ l.map (nodeName stem)) ∧
          (∀ g, g ≠ group → groupNodes c1 g = groupNodes c g) ∧
          groupNames c1 = groupNames c) := by
  intro l
  induction l with
  | nil =>
    intro c ns hc _ _
    right
    exact ⟨by simp, c, rfl, by simpa using hc, fun _ _ => rfl, rfl⟩
  | cons i rest ih =>
    intro c ns hc hfresh hnd
    have hi : nodeName stem i ∉ ns := hfresh i (by simp)
    rw [List.map_cons, List.nodup_cons] at hnd
    rcases AddNode_fresh env c group (nodeName stem i) ns hc hi with
      ⟨code, hcode, hadd⟩ | ⟨hnone, c1, hadd, hg1, hother1, hnames1⟩
    · left
      exact ⟨i, code, by simp, hcode, by simp [addEach, hadd]⟩
    · have hfresh1 : ∀ j ∈ rest, nodeName stem j ∉ ns ++ [nodeName stem i] := by
        intro j hj hmem
        rcases List.mem_append.mp hmem with h | h
        · exact hfresh j (by simp [hj]) h
        · have : nodeName stem j = nodeName stem i := by simpa using h
          exact hnd.1 (this ▸ List.mem_map_of_mem _ hj)
      rcases ih c1 (ns ++ [nodeName stem i]) hg1 hfresh1 hnd.2 with
        ⟨j, code, hj, hcode, hrun⟩ | ⟨hall, c2, hrun, hg2, hother2, hnames2⟩
      · left
        exact ⟨j, code, by simp [hj], hcode, by simp [addEach, hadd, hrun]⟩
      · right
        refine ⟨?_, c2, by simp [addEach, hadd, hrun], by simpa using hg2, ?_, ?_⟩
        · intro j hj
          rcases List.mem_cons.mp hj with h | h
          · rw [h]; exact hnone
          · exact hall j h
        · intro g hg
          rw [hother2 g hg, hother1 g hg]
        · rw [hnames2, hnames1]

theorem loopIndices_names_nodup (stem : String) (count : Int) :
    ((loopIndices count).map (nodeName stem)).Nodup :=
  (List.nodup_range _).map (nodeName_injective stem)

theorem perm_names_nodup (stem : String) (l : List Nat) (count : Int)
    (h : l.Perm (loopIndices count)) : (l.map (nodeName stem)).Nodup :=
  ((List.Perm.nodup_iff h).mpr (List.nodup_range _)).map (nodeName_injective stem)

end cmd

namespace cmd

/-- A group is registered and then filled by a loop over pairwise distinct
names: the first platform error, or the group with exactly these names. -/
theorem addGroup_spec (env : Env) (group stem : String) (wrap : Nat → GoErr → GoErr)
    (l : List Nat) (c : Cluster) (hnd : (l.map (nodeName stem)).Nodup) :
    (∃ i code, i ∈ l ∧ env.nodeErr group (nodeName stem i) = some code ∧
        addEach env group stem wrap l (AddNodeGroup c group)
          = .error (wrap i (GoErr.ext code))) ∨
      ((∀ i ∈ l, env.nodeErr group (nodeName stem i) = none) ∧
        ∃ c1, addEach env group stem wrap l (AddNodeGroup c group) = .ok c1 ∧
        groupNodes c1 group = some (l.map (nodeName stem)) ∧
        (∀ g, g ≠ group → groupNodes c1 g = groupNodes c g) ∧
        groupNames c1 = (groupNames c).filter (fun g => g ≠ group) ++ [group]) := by
  rcases addEach_spec env group stem wrap l (AddNodeGroup c group) []
      (groupNodes_AddNodeGroup_self c group) (by simp) hnd with h | ⟨hall, c1, hrun, hg, ho, hn⟩
  · left; exact h
  · right
    refine ⟨hall, c1, hrun, by simpa using hg, ?_, ?_⟩
    · intro g hne
      rw [ho g hne, groupNodes_AddNodeGroup_other c group g hne]
    · rw [hn, groupNames_AddNodeGroup]

/-- The start path on an image with a version: an error of the platform, or
the three groups with the names of the three loops. -/
theorem startPath_spec (env : Env) (f : Flags) (s : Schedule) (v : String)
    (hv : versionLabel f.image = .ok v) (hfair : s.fair f) :
    (∃ e code, startPath env f s NewCluster = .error e ∧ rootCause e = GoErr.ext code ∧
        ∃ g n, env.nodeErr g n = some code) ∨
      (∃ c, startPath env f s NewCluster = .ok c ∧
        groupNames c = ["bootnodes", "bee", "drone"] ∧
        groupNodes c "bootnodes" = some (s.bootnodes.map (nodeName "bootnode")) ∧
        groupNodes c "bee" = some (s.bee.map (nodeName "bee")) ∧
        groupNodes c "drone" = some (s.drone.map (nodeName "drone"))) := by
  obtain ⟨hb, hbee, hdrone⟩ := hfair
  unfold startPath
  rw [hv]
  simp only [startLoop]
  rcases addGroup_spec env "bootnodes" "bootnode"
      (fun _ e => GoErr.Errorf ("starting " ++ "bootnodes" ++ ": %w") [] e) s.bootnodes NewCluster
      (perm_names_nodup _ _ _ hb) with
    ⟨i, code, _, hcode, hrun⟩ | ⟨_, c1, hrun, hg1, ho1, hn1⟩
  · left; exact ⟨_, code, by simp only [hrun]; rfl, by simp [rootCause], _, _, hcode⟩
  simp only [hrun]
  rcases addGroup_spec env "bee" "bee"
      (fun _ e => GoErr.Errorf ("starting " ++ "bee nodes" ++ ": %w") [] e) s.bee c1
      (perm_names_nodup _ _ _ hbee) with
    ⟨i, code, _, hcode, hrun2⟩ | ⟨_, c2, hrun2, hg2, ho2, hn2⟩
  · left; exact ⟨_, code, by simp only [hrun2]; rfl, by simp [rootCause], _, _, hcode⟩
  simp only [hrun2]
  rcases addGroup_spec env "drone" "drone"
      (fun _ e => GoErr.Errorf ("starting " ++ "drone nodes" ++ ": %w") [] e) s.drone c2
      (perm_names_nodup _ _ _ hdrone) with
    ⟨i, code, _, hcode, hrun3⟩ | ⟨_, c3, hrun3, hg3, ho3, hn3⟩
  · left; exact ⟨_, code, by simp only [hrun3]; rfl, by simp [rootCause], _, _, hcode⟩
  right
  refine ⟨c3, hrun3, ?_, ?_, ?_, hg3⟩
  · rw [hn3, hn2, hn1]; decide
  · rw [ho3 _ (by decide), ho2 _ (by decide), hg1]
  · rw [ho3 _ (by decide), hg2]

/-- The reuse path on an image with a version: an error of the platform, or
the groups "bee" and "drone" (and "bootnodes" when the bootnode count is
positive) with the names of the loops. -/
theorem reusePath_spec (env : Env) (f : Flags) (v : String)
    (hv : versionLabel f.image = .ok v) :
    (∃ e code, reusePath env f NewCluster = .error e ∧ rootCause e = GoErr.ext code ∧
        ∃ g n, env.nodeErr g n = some code) ∨
      (∃ c, reusePath env f NewCluster = .ok c ∧
        groupNames c = (if 0 < f.bootnodeCount then ["bootnodes", "bee", "drone"]
          else ["bee", "drone"]) ∧
        groupNodes c "bootnodes" = (if 0 < f.bootnodeCount then
          some ((loopIndices f.bootnodeCount).map (nodeName "bootnode")) else none) ∧
        groupNodes c "bee" = some ((loopIndices f.nodeCount).map (nodeName "bee")) ∧
        groupNodes c "drone" = some ((loopIndices f.nodeCount).map (nodeName "drone"))) := by
  have key : ∀ c1 : Cluster, groupNodes c1 "bee" = none → groupNodes c1 "drone" = none →
      (∃ e code, (match versionLabel f.image with
          | .panic m => Outcome.panic m
          | .error e => .error e
          | .ok _ =>
            match addLoop env "bee" "bee" (loopIndices f.nodeCount) (AddNodeGroup c1 "bee") with
            | .panic m => .panic m
            | .error e => .error e
            | .ok c2 =>
              addLoop env "drone" "drone" (loopIndices f.nodeCount) (AddNodeGroup c2 "drone"))
          = .error e ∧ rootCause e = GoErr.ext code ∧
          ∃ g n, env.nodeErr g n = some code) ∨
      (∃ c, (match versionLabel f.image with
          | .panic m => Outcome.panic m
          | .error e => .error e
          | .ok _ =>
            match addLoop env "bee" "bee" (loopIndices f.nodeCount) (AddNodeGroup c1 "bee") with
            | .panic m => .panic m
            | .error e => .error e
            | .ok c2 =>
              addLoop env "drone" "drone" (loopIndices f.nodeCount) (AddNodeGroup c2 "drone"))
          = .ok c ∧
        groupNames c
          = ((groupNames c1).filter (fun g => g ≠ "bee")).filter (fun g => g ≠ "drone")
          ++ ["bee", "drone"] ∧
        groupNodes c "bootnodes" = groupNodes c1 "bootnodes" ∧
        groupNodes c "bee" = some ((loopIndices f.nodeCount).map (nodeName "bee")) ∧
        groupNodes c "drone" = some ((loopIndices f.nodeCount).map (nodeName "drone"))) := by
    intro c1 _ _
    rw [hv]
    simp only [addLoop]
    rcases addGroup_spec env "bee" "bee"
        (fun i e => GoErr.Errorf ("adding " ++ "bee" ++ "-%d: %w") [(i : Int)] e)
        (loopIndices f.nodeCount) c1 (loopIndices_names_nodup _ _)
      with ⟨i, code, _, hcode, hrun2⟩ | ⟨_, c2, hrun2, hg2, ho2, hn2⟩
    · left; exact ⟨_, code, by simp only [hrun2]; rfl, by simp [rootCause], _, _, hcode⟩
    simp only [hrun2]
    rcases addGroup_spec env "drone" "drone"
        (fun i e => GoErr.Errorf ("adding " ++ "drone" ++ "-%d: %w") [(i : Int)] e)
        (loopIndices f.nodeCount) c2 (loopIndices_names_nodup _ _)
      with ⟨i, code, _, hcode, hrun3⟩ | ⟨_, c3, hrun3, hg3, ho3, hn3⟩
    · left; exact ⟨_, code, by simp only [hrun3]; rfl, by simp [rootCause], _, _, hcode⟩
    right
    refine ⟨c3, hrun3, ?_, ?_, ?_, hg3⟩
    · rw [hn3, hn2]; simp [List.filter_append]
    · rw [ho3 _ (by decide), ho2 _ (by decide)]
    · rw [ho3 _ (by decide), hg2]
  unfold reusePath
  by_cases hb : 0 < f.bootnodeCount
  · simp only [hb, if_true]
    simp only [addLoop]
    rcases addGroup_spec env "bootnodes" "bootnode"
        (fun i e => GoErr.Errorf ("adding " ++ "bootnode" ++ "-%d: %w") [(i : Int)] e)
        (loopIndices f.bootnodeCount) NewCluster (loopIndices_names_nodup _ _)
      with ⟨i, code, _, hcode, hrun⟩ | ⟨_, c1, hrun, hg1, ho1, hn1⟩
    · left; exact ⟨_, code, by simp only [hrun]; rfl, by simp [rootCause], _, _, hcode⟩
    simp only [hrun]
    rcases key c1 (by rw [ho1 _ (by decide)]; rfl) (by rw [ho1 _ (by decide)]; rfl) with
      h | ⟨c, hrun2, hn, hbn, hbee, hdr⟩
    · left; simpa only [addLoop] using h
    · right
      refine ⟨c, by simpa only [addLoop] using hrun2, ?_, ?_, hbee, hdr⟩
      · rw [hn, hn1]; decide
      · rw [hbn, hg1]
  · simp only [hb, if_false]
    rcases key NewCluster rfl rfl with h | ⟨c, hrun2, hn, hbn, hbee, hdr⟩
    · left; exact h
    · right
      refine ⟨c, hrun2, ?_, ?_, hbee, hdr⟩
      · rw [hn]; decide
      · rw [hbn]; rfl

end cmd

/-! ## `strings.Split` -/

theorem splitChars_shape (sep : Char) : ∀ s : List Char,
    splitChars sep s = s.takeWhile (fun c => c ≠ sep) ::
      (if sep ∈ s then splitChars sep ((s.dropWhile (fun c => c ≠ sep)).drop 1) else []) := by
  intro s
  induction s with
  | nil => simp [splitChars]
  | cons c cs ih =>
    by_cases h : c = sep
    · simp [splitChars, h, List.takeWhile, List.dropWhile]
    · have hne : ¬ sep = c := fun h1 => h h1.symm
      rw [splitChars, if_neg h, ih]
      simp [List.takeWhile, List.dropWhile, h, hne]

theorem splitChars_second (sep : Char) (s : List Char) :
    (splitChars sep s).get? 1 = if sep ∈ s then some (cmd.afterFirst sep s) else none := by
  rw [splitChars_shape]
  by_cases h : sep ∈ s
  · simp only [h, if_true, List.get?_cons_succ]
    rw [splitChars_shape]
    simp [cmd.afterFirst]
  · simp [h]

theorem versionLabel_eq (image : String) :
    cmd.versionLabel image = if ':' ∈ image.data then
      .ok (String.mk (cmd.afterFirst ':' image.data))
      else .panic "index out of range [1] with length 1" := by
  unfold cmd.versionLabel Split
  rw [List.get?_eq_getElem?, List.getElem?_map, ← List.get?_eq_getElem?, splitChars_second]
  by_cases h : ':' ∈ image.data <;> simp [h]

/-! ## The stage plan -/

namespace cmd

theorem applyUpdate_comm (sizes : Sizes) (u v : Update) :
    applyUpdate (applyUpdate sizes u) v = applyUpdate (applyUpdate sizes v) u := by
  funext g
  simp only [applyUpdate, applyActions]
  split_ifs <;> ring

theorem applyStage_perm (sizes : Sizes) (s1 s2 : Stage) (h : s1.Perm s2) :
    applyStage sizes s1 = applyStage sizes s2 := by
  unfold applyStage
  induction h generalizing sizes with
  | nil => rfl
  | cons x _ ih => simpa using ih (applyUpdate sizes x)
  | swap x y l => simp only [List.foldl_cons]; rw [applyUpdate_comm]
  | trans _ _ ih1 ih2 => rw [ih1, ih2]

/-- C6. The first stage of `checkStages` is bee: add 2, start 0, stop 1,
delete 3 and drone: add 4, start 0, stop 3, delete 1; from sizes bee = 5 and
drone = 5 the size rule gives bee = 4 and drone = 8; and for every stage of
`checkStages`, every update of it and every group size that is at least the
delete count, the size after the stage is `previousSize + addCount -
deleteCount`, whatever the order of the updates within the stage. -/
theorem checkStages_size_rule (sizes : Sizes) (stage : Stage) (hs : stage ∈ checkStages)
    (u : Update) (hu : u ∈ stage) (_hdel : u.Actions.DeleteCount ≤ sizes u.NodeGroup)
    (stage1 : Stage) (hp : stage1.Perm stage) :
    checkStages.head? = some
        [ { NodeGroup := "bee"
            Actions := { AddCount := 2, StartCount := 0, StopCount := 1, DeleteCount := 3 } },
          { NodeGroup := "drone"
            Actions := { AddCount := 4, StartCount := 0, StopCount := 3, DeleteCount := 1 } } ] ∧
      (∀ first, checkStages.head? = some first →
        applyStage (fun _ => 5) first "bee" = 4 ∧ applyStage (fun _ => 5) first "drone" = 8) ∧
      applyStage sizes stage u.NodeGroup
        = sizes u.NodeGroup + u.Actions.AddCount - u.Actions.DeleteCount ∧
      applyStage sizes stage1 = applyStage sizes stage := by
  refine ⟨rfl, ?_, ?_, applyStage_perm sizes stage1 stage hp⟩
  · intro first hfirst
    have : first = _ := (Option.some.inj hfirst).symm
    subst this
    simp [applyStage, applyUpdate, applyActions]
  · simp only [checkStages, List.mem_cons, List.mem_singleton, List.not_mem_nil, or_false] at hs
    rcases hs with rfl | rfl | rfl <;>
      simp only [List.mem_cons, List.mem_singleton, List.not_mem_nil, or_false] at hu <;>
      rcases hu with rfl | rfl <;>
      simp [applyStage, applyUpdate, applyActions]

/-- Witness for C6: the first stage, its update of "bee", sizes 5 and 5, and
the stage with its two updates swapped. -/
theorem checkStages_size_rule_witness :
    applyStage (fun _ => 5)
        [ { NodeGroup := "bee"
            Actions := { AddCount := 2, StartCount := 0, StopCount := 1, DeleteCount := 3 } },
          { NodeGroup := "drone"
            Actions := { AddCount := 4, StartCount := 0, StopCount := 3, DeleteCount := 1 } } ]
        "bee" = 5 + 2 - 3 ∧
      applyStage (fun _ => 5)
        [ { NodeGroup := "drone"
            Actions := { AddCount := 4, StartCount := 0, StopCount := 3, DeleteCount := 1 } },
          { NodeGroup := "bee"
            Actions := { AddCount := 2, StartCount := 0, StopCount := 1, DeleteCount := 3 } } ]
        = applyStage (fun _ => 5)
        [ { NodeGroup := "bee"
            Actions := { AddCount := 2, StartCount := 0, StopCount := 1, DeleteCount := 3 } },
          { NodeGroup := "drone"
            Actions := { AddCount := 4, StartCount := 0, StopCount := 3, DeleteCount := 1 } } ] :=
  have h := checkStages_size_rule (fun _ => 5)
    [ { NodeGroup := "bee"
        Actions := { AddCount := 2, StartCount := 0, StopCount := 1, DeleteCount := 3 } },
      { NodeGroup := "drone"
        Actions := { AddCount := 4, StartCount := 0, StopCount := 3, DeleteCount := 1 } } ]
    (by simp [checkStages])
    { NodeGroup := "bee"
      Actions := { AddCount := 2, StartCount := 0, StopCount := 1, DeleteCount := 3 } }
    (by simp) (by decide)
    [ { NodeGroup := "drone"
        Actions := { AddCount := 4, StartCount := 0, StopCount := 3, DeleteCount := 1 } },
      { NodeGroup := "bee"
        Actions := { AddCount := 2, StartCount := 0, StopCount := 1, DeleteCount := 3 } } ]
    (List.Perm.swap _ _ _)
  ⟨h.2.2.1, h.2.2.2⟩

theorem planOk_checkStages (sizes : Sizes) :
    planOk sizes checkStages = true ↔ 4 ≤ sizes "bee" ∧ 3 ≤ sizes "drone" := by
  simp [planOk, checkStages, applyStage, applyUpdate, applyActions, updateOk]
  omega

end cmd

/-! ## The setup of the ping command -/

namespace cmd

/-- The reuse path on an image without a version: an error of the platform
while the bootnodes are added, or the panic of the label. -/
theorem reusePath_nolabel (env : Env) (f : Flags) (m : String)
    (hv : versionLabel f.image = .panic m) :
    (∃ i code, 0 < f.bootnodeCount ∧ i ∈ loopIndices f.bootnodeCount ∧
        env.nodeErr "bootnodes" (nodeName "bootnode" i) = some code ∧
        ∃ e, reusePath env f NewCluster = .error e ∧ rootCause e = GoErr.ext code) ∨
      reusePath env f NewCluster = .panic m := by
  unfold reusePath
  by_cases hb : 0 < f.bootnodeCount
  · simp only [hb, if_true, addLoop]
    rcases addGroup_spec env "bootnodes" "bootnode"
        (fun i e => GoErr.Errorf ("adding " ++ "bootnode" ++ "-%d: %w") [(i : Int)] e)
        (loopIndices f.bootnodeCount) NewCluster (loopIndices_names_nodup _ _)
      with ⟨i, code, hi, hcode, hrun⟩ | ⟨_, c1, hrun, _, _, _⟩
    · left
      exact ⟨i, code, trivial, hi, hcode, _, by simp only [hrun]; rfl, by simp [rootCause]⟩
    · right
      simp only [hrun, hv]
  · right
    simp only [hb, if_false, hv]

/-- The three ways in which the setup ends under a fair schedule: an error whose
root is an error of Kubernetes or of the platform, the panic of the label on an
image without a colon, or a cluster with the groups and names of the loops. -/
theorem RunE_cases (env : Env) (f : Flags) (s : Schedule) (hfair : s.fair f) :
    (∃ e code, RunE env f s = .error e ∧ rootCause e = GoErr.ext code ∧
        (env.k8sErr = some code ∨ ∃ g n, env.nodeErr g n = some code)) ∨
      (':' ∉ f.image.data ∧ RunE env f s = labelPanic) ∨
      (':' ∈ f.image.data ∧ env.k8sErr = none ∧ ∃ c, RunE env f s = .ok c ∧
        groupNames c = (if f.startCluster = true ∨ 0 < f.bootnodeCount
          then ["bootnodes", "bee", "drone"] else ["bee", "drone"]) ∧
        groupNodes c "bootnodes" = (if f.startCluster = true then
            some (s.bootnodes.map (nodeName "bootnode"))
          else if 0 < f.bootnodeCount then
            some ((loopIndices f.bootnodeCount).map (nodeName "bootnode")) else none) ∧
        groupNodes c "bee" = some ((if f.startCluster = true then s.bee
          else loopIndices f.nodeCount).map (nodeName "bee")) ∧
        groupNodes c "drone" = some ((if f.startCluster = true then s.drone
          else loopIndices f.nodeCount).map (nodeName "drone"))) := by
  unfold RunE
  cases hk : env.k8sErr with
  | some code => left; exact ⟨_, code, rfl, by simp [rootCause], Or.inl rfl⟩
  | none =>
    simp only
    have hlabel := versionLabel_eq f.image
    by_cases hc : ':' ∈ f.image.data
    · rw [if_pos hc] at hlabel
      cases hsc : f.startCluster with
      | true =>
        simp only [if_true]
        rcases startPath_spec env f s _ hlabel hfair with h | ⟨c, hrun, hn, hb, hbee, hdr⟩
        · left
          obtain ⟨e, code, h1, h2, h3⟩ := h
          exact ⟨e, code, h1, h2, Or.inr h3⟩
        · right; right
          exact ⟨hc, trivial, c, hrun, by simpa using hn, by simpa using hb, by simpa using hbee,
            by simpa using hdr⟩
      | false =>
        simp only [Bool.false_eq_true, if_false]
        rcases reusePath_spec env f _ hlabel with h | ⟨c, hrun, hn, hb, hbee, hdr⟩
        · left
          obtain ⟨e, code, h1, h2, h3⟩ := h
          exact ⟨e, code, h1, h2, Or.inr h3⟩
        · right; right
          exact ⟨hc, trivial, c, hrun, by simpa using hn, by simpa using hb, by simpa using hbee,
            by simpa using hdr⟩
    · rw [if_neg hc] at hlabel
      cases hsc : f.startCluster with
      | true =>
        right; left
        simp only [if_true, startPath, hlabel]
        exact ⟨hc, rfl⟩
      | false =>
        simp only [Bool.false_eq_true, if_false]
        rcases reusePath_nolabel env f _ hlabel with
          ⟨_, code, _, _, hcode, e, hrun, hroot⟩ | hrun
        · left; exact ⟨e, code, hrun, hroot, Or.inr ⟨_, _, hcode⟩⟩
        · right; left; exact ⟨hc, hrun⟩

theorem clusterSizes_of_nodes (c : Cluster) (g stem : String) (l : List Nat) (n : Int)
    (hl : l.Perm (loopIndices n)) (hg : groupNodes c g = some (l.map (nodeName stem))) :
    clusterSizes c g = (n.toNat : Int) := by
  unfold clusterSizes
  rw [hg]
  simp [hl.length_eq, loopIndices]

/-- After a setup that succeeds the groups "bee" and "drone" hold as many nodes
as the node count says. -/
theorem RunE_sizes (env : Env) (f : Flags) (s : Schedule) (c : Cluster) (hfair : s.fair f)
    (hrun : RunE env f s = .ok c) :
    clusterSizes c "bee" = (f.nodeCount.toNat : Int) ∧
      clusterSizes c "drone" = (f.nodeCount.toNat : Int) := by
  rcases RunE_cases env f s hfair with
    ⟨e, _, he, _, _⟩ | ⟨_, hp⟩ | ⟨_, _, c1, hc1, _, _, hbee, hdr⟩
  · rw [he] at hrun; cases hrun
  · rw [hp] at hrun; cases hrun
  · rw [hc1] at hrun
    cases hrun
    cases hsc : f.startCluster with
    | true =>
      simp only [hsc, if_true] at hbee hdr
      exact ⟨clusterSizes_of_nodes c _ _ _ _ hfair.2.1 hbee,
        clusterSizes_of_nodes c _ _ _ _ hfair.2.2 hdr⟩
    | false =>
      simp only [hsc, Bool.false_eq_true, if_false] at hbee hdr
      exact ⟨clusterSizes_of_nodes c _ _ _ _ (List.Perm.refl _) hbee,
        clusterSizes_of_nodes c _ _ _ _ (List.Perm.refl _) hdr⟩

theorem inOrder_fair (f : Flags) : (Schedule.inOrder f).fair f :=
  ⟨List.Perm.refl _, List.Perm.refl _, List.Perm.refl _⟩

end cmd

/-! ## Claims on the ping command -/

namespace cmd

theorem groupNodes_of_not_mem (c : Cluster) (g : String) (h : g ∉ groupNames c) :
    groupNodes c g = none := by
  induction c with
  | nil => rfl
  | cons x c ih =>
    have h1 : ¬ x.1 = g := fun e => h (by simp [groupNames, e.symm])
    have h2 : g ∉ groupNames c := fun e => h (by
      simp only [groupNames, List.map_cons, List.mem_cons]
      exact Or.inr e)
    rw [groupNodes_cons, if_neg h1, ih h2]

theorem groupNodes_of_mem (c : Cluster) (g : String) (h : g ∈ groupNames c) :
    ∃ ns, groupNodes c g = some ns := by
  induction c with
  | nil => simp [groupNames] at h
  | cons x c ih =>
    rw [groupNodes_cons]
    by_cases h1 : x.1 = g
    · exact ⟨x.2, by simp [h1]⟩
    · have h2 : g ∈ groupNames c := by
        simp only [groupNames, List.map_cons, List.mem_cons] at h
        rcases h with h | h
        · exact absurd h.symm h1
        · exact h
      simpa [h1] using ih h2

/-- C7, counterexample. With the default node count 1 the first stage deletes 3
nodes from the one-node group "bee": the plan does not stay within the
sizes. -/
theorem plan_exceeds_default_size :
    (1 : Int) ≤ defaultFlags.nodeCount ∧ planOk (pingSizes 1) checkStages = false ∧
      ∃ c, RunE quietEnv defaultFlags (Schedule.inOrder defaultFlags) = .ok c ∧
        clusterSizes c "bee" = 1 ∧ planOk (clusterSizes c) checkStages = false := by
  refine ⟨by decide, ?_, ?_⟩
  · rw [Bool.eq_false_iff, Ne, planOk_checkStages]
    simp [pingSizes]
  · rcases RunE_cases quietEnv defaultFlags (Schedule.inOrder defaultFlags) (inOrder_fair _) with
      ⟨e, code, _, _, h | ⟨g, n, h⟩⟩ | ⟨h, _⟩ | ⟨_, _, c, hrun, _⟩
    · cases h
    · cases h
    · exact absurd (by decide) h
    · have hs := RunE_sizes quietEnv defaultFlags _ c (inOrder_fair _) hrun
      refine ⟨c, hrun, hs.1, ?_⟩
      rw [Bool.eq_false_iff, Ne, planOk_checkStages, hs.1, hs.2]
      simp [defaultFlags]

/-- C7, amended. For every node count `n ≥ 4` with which the ping command fills
the groups "bee" and "drone", and with sizes evolving stage by stage as
`previousSize + addCount - deleteCount`, every update of every stage of
`checkStages` has non-negative counts, and its start, stop and delete counts
do not exceed the size its group has when the stage is applied; below 4 this
fails. -/
theorem plan_within_sizes (env : Env) (f : Flags) (s : Schedule) (c : Cluster)
    (hfair : s.fair f) (hrun : RunE env f s = .ok c) (hn : 4 ≤ f.nodeCount) :
    clusterSizes c "bee" = f.nodeCount ∧ clusterSizes c "drone" = f.nodeCount ∧
      planOk (clusterSizes c) checkStages = true ∧
      planOk (pingSizes f.nodeCount) checkStages = true ∧
      ∀ n : Int, planOk (pingSizes n) checkStages = true ↔ 4 ≤ n := by
  have hs := RunE_sizes env f s c hfair hrun
  have hnat : (f.nodeCount.toNat : Int) = f.nodeCount := Int.toNat_of_nonneg (by omega)
  rw [hnat] at hs
  refine ⟨hs.1, hs.2, ?_, ?_, ?_⟩
  · rw [planOk_checkStages, hs.1, hs.2]; omega
  · rw [planOk_checkStages]; simp [pingSizes]; omega
  · intro n
    rw [planOk_checkStages]; simp [pingSizes]; omega

/-- Witness for C7: node count 4 on the reuse path with no failing call. -/
theorem plan_within_sizes_witness :
    ∃ c, RunE quietEnv { defaultFlags with nodeCount := 4 }
        (Schedule.inOrder { defaultFlags with nodeCount := 4 }) = .ok c ∧
      planOk (clusterSizes c) checkStages = true := by
  rcases RunE_cases quietEnv { defaultFlags with nodeCount := 4 }
      (Schedule.inOrder { defaultFlags with nodeCount := 4 }) (inOrder_fair _) with
    ⟨e, code, _, _, h | ⟨g, n, h⟩⟩ | ⟨h, _⟩ | ⟨_, _, c, hrun, _⟩
  · cases h
  · cases h
  · exact absurd (by decide) h
  · exact ⟨c, hrun,
      (plan_within_sizes quietEnv { defaultFlags with nodeCount := 4 } _ c (inOrder_fair _) hrun
        (by decide)).2.2.1⟩

/-- C8. For every bootnode count and node count the names that the ping command
generates for one group ("bootnode-i" for the bootnodes, "bee-i" and "drone-i"
for the node groups, `i` in decimal) are pairwise distinct, in the order of the
loops and in any order in which the tasks of the start path take effect; so no
`AddNode` or `AddStartNode` of the setup meets its name in its group: the setup
never ends with `DuplicateNameError`. -/
theorem setup_names_distinct (env : Env) (f : Flags) (s : Schedule) (hfair : s.fair f) :
    ((loopIndices f.bootnodeCount).map (nodeName "bootnode")).Nodup ∧
      ((loopIndices f.nodeCount).map (nodeName "bee")).Nodup ∧
      ((loopIndices f.nodeCount).map (nodeName "drone")).Nodup ∧
      (s.bootnodes.map (nodeName "bootnode")).Nodup ∧
      (s.bee.map (nodeName "bee")).Nodup ∧
      (s.drone.map (nodeName "drone")).Nodup ∧
      ∀ e, RunE env f s = .error e → rootCause e ≠ DuplicateNameError := by
  refine ⟨loopIndices_names_nodup _ _, loopIndices_names_nodup _ _,
    loopIndices_names_nodup _ _, perm_names_nodup _ _ _ hfair.1,
    perm_names_nodup _ _ _ hfair.2.1, perm_names_nodup _ _ _ hfair.2.2, ?_⟩
  intro e he
  rcases RunE_cases env f s hfair with ⟨e1, code, h1, hroot, _⟩ | ⟨_, hp⟩ | ⟨_, _, c, hc, _⟩
  · rw [h1] at he
    cases he
    rw [hroot]
    simp [DuplicateNameError]
  · rw [hp] at he; cases he
  · rw [hc] at he; cases he

/-- Witness for C8: two bootnodes and three nodes on the start path, the tasks
taking effect in the order of their launch. -/
theorem setup_names_distinct_witness :
    ((loopIndices 3).map (nodeName "bee")).Nodup ∧
      ∀ e, RunE quietEnv startFlags (Schedule.inOrder startFlags) = .error e →
        rootCause e ≠ DuplicateNameError :=
  have h := setup_names_distinct quietEnv startFlags (Schedule.inOrder startFlags)
    (inOrder_fair _)
  ⟨h.2.1, h.2.2.2.2.2.2⟩

/-- C9, counterexample. With the default bootnode count 0 the start path
registers the group "bootnodes" and the reuse path does not. -/
theorem paths_differ_without_bootnodes :
    (0 : Int) ≤ defaultFlags.bootnodeCount ∧ (0 : Int) ≤ defaultFlags.nodeCount ∧
      ∃ c1 c2,
        RunE quietEnv { defaultFlags with startCluster := true }
          (Schedule.inOrder defaultFlags) = .ok c1 ∧
        RunE quietEnv { defaultFlags with startCluster := false }
          (Schedule.inOrder defaultFlags) = .ok c2 ∧
        "bootnodes" ∈ groupNames c1 ∧ "bootnodes" ∉ groupNames c2 ∧ ¬ sameModel c1 c2 := by
  refine ⟨by decide, by decide, ?_⟩
  rcases RunE_cases quietEnv { defaultFlags with startCluster := true }
      (Schedule.inOrder defaultFlags) (inOrder_fair _) with
    ⟨e, code, _, _, h | ⟨g, n, h⟩⟩ | ⟨h, _⟩ | ⟨_, _, c1, hrun1, hn1, _⟩
  · cases h
  · cases h
  · exact absurd (by decide) h
  rcases RunE_cases quietEnv { defaultFlags with startCluster := false }
      (Schedule.inOrder defaultFlags) (inOrder_fair _) with
    ⟨e, code, _, _, h | ⟨g, n, h⟩⟩ | ⟨h, _⟩ | ⟨_, _, c2, hrun2, hn2, _⟩
  · cases h
  · cases h
  · exact absurd (by decide) h
  have h1 : "bootnodes" ∈ groupNames c1 := by rw [hn1]; decide
  have h2 : "bootnodes" ∉ groupNames c2 := by rw [hn2]; decide
  exact ⟨c1, c2, hrun1, hrun2, h1, h2, fun h => h2 ((h.1 "bootnodes").mp h1)⟩

/-- C9, amended. When no operation fails (Kubernetes client and every node
call succeed, the image has a version), the start path and the reuse path
both build a cluster; in the groups "bee" and "drone" they register the same
node names for every bootnode count and node count; for a positive bootnode
count they register the same groups and in each group the same names; for a
bootnode count of 0 (or below) the start path registers one group more, the
empty group "bootnodes", which the reuse path does not register. -/
theorem paths_converge (env : Env) (f : Flags) (s : Schedule) (hfair : s.fair f)
    (hk : env.k8sErr = none) (he : ∀ g n, env.nodeErr g n = none)
    (hv : ':' ∈ f.image.data) :
    ∃ c1 c2,
      RunE env { f with startCluster := true } s = .ok c1 ∧
      RunE env { f with startCluster := false } s = .ok c2 ∧
      (∀ name, name ∈ (groupNodes c1 "bee").getD [] ↔ name ∈ (groupNodes c2 "bee").getD []) ∧
      (∀ name, name ∈ (groupNodes c1 "drone").getD []
        ↔ name ∈ (groupNodes c2 "drone").getD []) ∧
      (0 < f.bootnodeCount → sameModel c1 c2) ∧
      (f.bootnodeCount ≤ 0 → groupNames c1 = "bootnodes" :: groupNames c2 ∧
        groupNodes c1 "bootnodes" = some [] ∧ groupNodes c2 "bootnodes" = none) := by
  rcases RunE_cases env { f with startCluster := true } s hfair with
    ⟨e, code, _, _, h | ⟨g, n, h⟩⟩ | ⟨h, _⟩ | ⟨_, _, c1, hrun1, hn1, hb1, hbee1, hdr1⟩
  · rw [hk] at h; cases h
  · rw [he] at h; cases h
  · exact absurd hv h
  rcases RunE_cases env { f with startCluster := false } s hfair with
    ⟨e, code, _, _, h | ⟨g, n, h⟩⟩ | ⟨h, _⟩ | ⟨_, _, c2, hrun2, hn2, hb2, hbee2, hdr2⟩
  · rw [hk] at h; cases h
  · rw [he] at h; cases h
  · exact absurd hv h
  simp only [if_true, true_or] at hn1 hb1 hbee1 hdr1
  simp only [Bool.false_eq_true, if_false, false_or] at hn2 hb2 hbee2 hdr2
  have hbee : ∀ name, name ∈ (groupNodes c1 "bee").getD []
      ↔ name ∈ (groupNodes c2 "bee").getD [] := by
    intro name
    rw [hbee1, hbee2]
    exact (hfair.2.1.map _).mem_iff
  have hdr : ∀ name, name ∈ (groupNodes c1 "drone").getD []
      ↔ name ∈ (groupNodes c2 "drone").getD [] := by
    intro name
    rw [hdr1, hdr2]
    exact (hfair.2.2.map _).mem_iff
  refine ⟨c1, c2, hrun1, hrun2, hbee, hdr, ?_, ?_⟩
  · intro hpos
    simp only [hpos, if_true] at hn2 hb2
    refine ⟨fun g => by rw [hn1, hn2], ?_⟩
    intro g name
    by_cases hg : g ∈ groupNames c1
    · rw [hn1] at hg
      simp only [List.mem_cons, List.mem_singleton, List.not_mem_nil, or_false] at hg
      rcases hg with rfl | rfl | rfl
      · rw [hb1, hb2]
        exact (hfair.1.map _).mem_iff
      · exact hbee name
      · exact hdr name
    · have hg2 : g ∉ groupNames c2 := by rw [hn2, ← hn1]; exact hg
      rw [groupNodes_of_not_mem c1 g hg, groupNodes_of_not_mem c2 g hg2]
  · intro hle
    have hnot : ¬ 0 < f.bootnodeCount := by omega
    simp only [hnot, if_false] at hn2 hb2
    refine ⟨by rw [hn1, hn2], ?_, hb2⟩
    rw [hb1]
    have hnil : loopIndices f.bootnodeCount = [] := by
      simp [loopIndices, Int.toNat_of_nonpos hle]
    have := hfair.1
    rw [hnil] at this
    simp [List.Perm.eq_nil this]

/-- Witness for C9: two bootnodes and three nodes, no failing call. -/
theorem paths_converge_witness :
    ∃ c1 c2,
      RunE quietEnv { startFlags with startCluster := true } (Schedule.inOrder startFlags)
        = .ok c1 ∧
      RunE quietEnv { startFlags with startCluster := false } (Schedule.inOrder startFlags)
        = .ok c2 ∧
      sameModel c1 c2 := by
  obtain ⟨c1, c2, h1, h2, _, _, h3, _⟩ := paths_converge quietEnv startFlags
    (Schedule.inOrder startFlags) (inOrder_fair _) rfl (fun _ _ => rfl) (by decide)
  exact ⟨c1, c2, h1, h2, h3 (by decide)⟩

/-- C10, counterexample. When the Kubernetes client cannot be created, the
command on an image without a colon returns that error and does not panic with
an index out of range. -/
theorem label_panic_not_reached :
    ':' ∉ "bee".data ∧
      RunE noK8sEnv { defaultFlags with image := "bee" } (Schedule.inOrder defaultFlags)
        = .error (GoErr.Errorf "creating Kubernetes client: %w" [] (GoErr.ext 1)) ∧
      RunE noK8sEnv { defaultFlags with image := "bee" } (Schedule.inOrder defaultFlags)
        ≠ labelPanic := by
  refine ⟨by decide, rfl, ?_⟩
  intro h
  have h1 : RunE noK8sEnv { defaultFlags with image := "bee" } (Schedule.inOrder defaultFlags)
      = .error (GoErr.Errorf "creating Kubernetes client: %w" [] (GoErr.ext 1)) := rfl
  rw [h1] at h
  cases h

/-- C10, amended. The label `strings.Split(image, ":")[1]` is defined exactly
when the image contains a colon, and is then the text between the first colon
and the next colon or the end; for the default image it is "latest"; and on an
image without a colon the command panics with an index out of range on either
path, provided the steps before the label succeed: the creation of the
Kubernetes client and, on the reuse path, the `AddNode` calls for the
bootnodes. -/
theorem versionLabel_defined (env : Env) (f : Flags) (s : Schedule)
    (hk : env.k8sErr = none)
    (hb : f.startCluster = false → ∀ i ∈ loopIndices f.bootnodeCount,
      env.nodeErr "bootnodes" (nodeName "bootnode" i) = none) :
    ((∃ v, versionLabel f.image = .ok v) ↔ ':' ∈ f.image.data) ∧
      (':' ∈ f.image.data →
        versionLabel f.image = .ok (String.mk (afterFirst ':' f.image.data))) ∧
      versionLabel defaultFlags.image = .ok "latest" ∧
      (':' ∉ f.image.data → RunE env f s = labelPanic) := by
  have hlabel := versionLabel_eq f.image
  refine ⟨?_, ?_, ?_, ?_⟩
  · by_cases hc : ':' ∈ f.image.data
    · rw [if_pos hc] at hlabel
      exact ⟨fun _ => hc, fun _ => ⟨_, hlabel⟩⟩
    · rw [if_neg hc] at hlabel
      refine ⟨fun h => ?_, fun h => absurd h hc⟩
      obtain ⟨v, hv⟩ := h
      rw [hlabel] at hv
      cases hv
  · intro hc
    rw [if_pos hc] at hlabel
    exact hlabel
  · rw [versionLabel_eq]
    decide
  · intro hc
    rw [if_neg hc] at hlabel
    unfold RunE
    rw [hk]
    cases hsc : f.startCluster with
    | true =>
      simp only [if_true, startPath, hlabel]
      rfl
    | false =>
      simp only [Bool.false_eq_true, if_false]
      rcases reusePath_nolabel env f _ hlabel with ⟨i, code, _, hi, hcode, _⟩ | hrun
      · rw [hb hsc i hi] at hcode
        cases hcode
      · exact hrun

/-- Witness for C10: the image "bee" on the reuse path with two bootnodes and
no failing call. -/
theorem versionLabel_defined_witness :
    RunE quietEnv noColonFlags (Schedule.inOrder noColonFlags) = labelPanic :=
  (versionLabel_defined quietEnv noColonFlags (Schedule.inOrder noColonFlags) rfl
    (fun _ _ _ => rfl)).2.2.2 (by decide)

end cmd

/-! ## The pinned-content check: the loops -/

namespace localpinning

theorem wrapInt_of_range (x : Int) (h1 : -(2 ^ 63) ≤ x) (h2 : x < 2 ^ 63) : wrapInt x = x := by
  unfold wrapInt
  have e63 : (2 : Int) ^ 63 = 9223372036854775808 := by norm_num
  have e64 : (2 : Int) ^ 64 = 18446744073709551616 := by norm_num
  rw [e63] at h1 h2 ⊢
  rw [e64]
  rw [Int.emod_eq_of_lt (by omega) (by omega)]
  omega

theorem payloadSize_eq (o : Options) (hS : 0 ≤ o.StoreSize) (hD : 0 < o.StoreSizeDivisor)
    (hfit : Int.tdiv o.StoreSize o.StoreSizeDivisor * ChunkSize < 2 ^ 63) :
    payloadSize o = Int.tdiv o.StoreSize o.StoreSizeDivisor * ChunkSize := by
  have hq : 0 ≤ Int.tdiv o.StoreSize o.StoreSizeDivisor := Int.tdiv_nonneg hS (le_of_lt hD)
  have e63 : (2 : Int) ^ 63 = 9223372036854775808 := by norm_num
  simp only [ChunkSize] at hfit ⊢
  rw [e63] at hfit
  unfold payloadSize goMul goDiv
  simp only [ChunkSize]
  rw [wrapInt_of_range (Int.tdiv o.StoreSize o.StoreSizeDivisor) (by rw [e63]; omega)
    (by rw [e63]; omega)]
  rw [wrapInt_of_range _ (by rw [e63]; omega) (by rw [e63]; omega)]

theorem fill_length (n : Nat) (f : Nat → Nat) : (fill n f).length = n := by
  simp [fill]

theorem uploads_append (a b : List Entry) : uploads (a ++ b) = uploads a ++ uploads b := by
  simp [uploads, List.filterMap_append]

theorem payloads_append (a b : List Entry) : payloads (a ++ b) = payloads a ++ payloads b := by
  simp [payloads, List.filterMap_append]

theorem pinnedOk_append (a b : List Entry) : pinnedOk (a ++ b) = pinnedOk a ++ pinnedOk b := by
  simp [pinnedOk, List.filterMap_append]

theorem confirmed_append (a b : List Entry) :
    confirmed (a ++ b) = confirmed a ++ confirmed b := by
  simp [confirmed, List.filterMap_append]

theorem unpinnedOk_append (a b : List Entry) :
    unpinnedOk (a ++ b) = unpinnedOk a + unpinnedOk b := by
  simp [unpinnedOk, List.filter_append]

theorem uploads_cons (e : Entry) (l : List Entry) :
    uploads (e :: l) = (match e.upload with
      | some u => [u]
      | none => []) ++ uploads l := by
  unfold uploads
  rw [List.filterMap_cons]
  cases e.upload <;> rfl

theorem payloads_cons (e : Entry) (l : List Entry) :
    payloads (e :: l) = (match e.payload with
      | some u => [u]
      | none => []) ++ payloads l := by
  unfold payloads
  rw [List.filterMap_cons]
  cases e.payload <;> rfl

theorem pinnedOk_cons (e : Entry) (l : List Entry) :
    pinnedOk (e :: l) = (match e.pinnedOk with
      | some u => [u]
      | none => []) ++ pinnedOk l := by
  unfold pinnedOk
  rw [List.filterMap_cons]
  cases e.pinnedOk <;> rfl

theorem confirmed_cons (e : Entry) (l : List Entry) :
    confirmed (e :: l) = (match e.confirmed with
      | some u => [u]
      | none => []) ++ confirmed l := by
  unfold confirmed
  rw [List.filterMap_cons]
  cases e.confirmed <;> rfl

theorem unpinnedOk_cons (e : Entry) (l : List Entry) :
    unpinnedOk (e :: l) = (if e.unpinnedOk then 1 else 0) + unpinnedOk l := by
  unfold unpinnedOk
  rw [List.filter_cons]
  cases e.unpinnedOk <;> simp [Nat.add_comm]

theorem floodLoop_shape {σ : Type} (w : World σ) (pivot : Nat) (node : Node) (size : Nat) :
    ∀ (k : Nat) (s : σ),
      (∀ e ∈ (floodLoop w pivot node size k s).log, e.ofFlood node size) ∧
      (((floodLoop w pivot node size k s).outcome = .ok () ∧
          unpinnedOk (floodLoop w pivot node size k s).log = k ∧
          uploads (floodLoop w pivot node size k s).log = List.replicate k (node, size, false) ∧
          ∀ e ∈ (floodLoop w pivot node size k s).log, e.failed = false) ∨
        (∃ err, (floodLoop w pivot node size k s).outcome = .error err ∧
          unpinnedOk (floodLoop w pivot node size k s).log < k ∧
          ∃ x ∈ (floodLoop w pivot node size k s).log, x.failed = true)) := by
  intro k
  induction k with
  | zero =>
    intro s
    simp [floodLoop, unpinnedOk, uploads]
  | succ k ih =>
    intro s
    unfold floodLoop
    rcases hr : w.Read s size with ⟨r, s1⟩
    cases r with
    | error e =>
      simp only
      refine ⟨?_, Or.inr ⟨_, rfl, ?_, ?_⟩⟩
      · intro x hx
        simp only [List.mem_singleton] at hx
        exact Or.inl ⟨_, hx⟩
      · simp [unpinnedOk, Entry.unpinnedOk]
      · exact ⟨_, List.mem_singleton.mpr rfl, rfl⟩
    | ok f =>
      simp only
      rcases hu : w.UploadBytes s1 node (fill size f) false with ⟨r2, s2⟩
      cases r2 with
      | some e =>
        simp only
        refine ⟨?_, Or.inr ⟨_, rfl, ?_, ?_⟩⟩
        · intro x hx
          simp only [List.mem_cons, List.mem_singleton, List.not_mem_nil, or_false] at hx
          rcases hx with hx | hx
          · exact Or.inl ⟨_, hx⟩
          · exact Or.inr ⟨_, _, hx⟩
        · simp [unpinnedOk, Entry.unpinnedOk]
        · exact ⟨⟨.UploadBytes node (fill size f) false, .err e⟩, by simp, rfl⟩
      | none =>
        simp only
        obtain ⟨hshape, hres⟩ := ih s2
        refine ⟨?_, ?_⟩
        · intro x hx
          simp only [List.mem_cons] at hx
          rcases hx with hx | hx | hx
          · exact Or.inl ⟨_, hx⟩
          · exact Or.inr ⟨_, _, hx⟩
          · exact hshape x hx
        · rcases hres with ⟨hok, hcount, hup, hfail⟩ | ⟨err, herr, hcount, x, hx, hxf⟩
          · left
            refine ⟨hok, ?_, ?_, ?_⟩
            · rw [unpinnedOk_cons, unpinnedOk_cons, hcount]
              simp [Entry.unpinnedOk]
              omega
            · rw [uploads_cons, uploads_cons, hup]
              simp [Entry.upload, fill_length, List.replicate_succ]
            · intro x hx
              simp only [List.mem_cons] at hx
              rcases hx with hx | hx | hx
              · rw [hx]; rfl
              · rw [hx]; rfl
              · exact hfail x hx
          · right
            refine ⟨err, herr, ?_, x, ?_, hxf⟩
            · rw [unpinnedOk_cons, unpinnedOk_cons]
              simp [Entry.unpinnedOk]
              omega
            · simp [hx]

theorem hasLoop_shape {σ : Type} (w : World σ) (node : Node) :
    ∀ (addrs : List Address) (s : σ),
      (∀ e ∈ (hasLoop w node addrs s).log, e.ofLook node) ∧
      (((hasLoop w node addrs s).outcome = .ok () ∧
          confirmed (hasLoop w node addrs s).log = addrs.map (fun a => (node, a)) ∧
          ∀ e ∈ (hasLoop w node addrs s).log, e.failed = false ∧ e.missing = false) ∨
        ((hasLoop w node addrs s).outcome
            = .error (GoErr.New "pinning node: chunk not found") ∧
          (confirmed (hasLoop w node addrs s).log).length < addrs.length ∧
          ∀ e ∈ (hasLoop w node addrs s).log, e.failed = false) ∨
        (∃ err, (hasLoop w node addrs s).outcome
            = .error (GoErr.Errorf "node has chunk: %w" [] err) ∧
          (confirmed (hasLoop w node addrs s).log).length < addrs.length ∧
          (∃ x ∈ (hasLoop w node addrs s).log, x.failed = true) ∧
          ∀ e ∈ (hasLoop w node addrs s).log, e.missing = false)) := by
  intro addrs
  induction addrs with
  | nil =>
    intro s
    simp [hasLoop, confirmed]
  | cons a rest ih =>
    intro s
    unfold hasLoop
    rcases hr : w.HasChunkRetry s node a 1 with ⟨r, s1⟩
    cases r with
    | error e =>
      simp only
      refine ⟨?_, Or.inr (Or.inr ⟨e, rfl, ?_, ?_, ?_⟩)⟩
      · intro x hx
        simp only [List.mem_singleton] at hx
        exact ⟨_, _, hx⟩
      · simp [confirmed, Entry.confirmed]
      · exact ⟨_, List.mem_singleton.mpr rfl, rfl⟩
      · intro x hx
        simp only [List.mem_singleton] at hx
        rw [hx]; rfl
    | ok b =>
      cases b with
      | false =>
        simp only
        refine ⟨?_, Or.inr (Or.inl ⟨trivial, ?_, ?_⟩)⟩
        · intro x hx
          simp only [List.mem_singleton] at hx
          exact ⟨_, _, hx⟩
        · simp [confirmed, Entry.confirmed]
        · intro x hx
          simp only [List.mem_singleton] at hx
          rw [hx]; rfl
      | true =>
        simp only
        obtain ⟨hshape, hres⟩ := ih s1
        refine ⟨?_, ?_⟩
        · intro x hx
          simp only [List.mem_cons] at hx
          rcases hx with hx | hx
          · exact ⟨_, _, hx⟩
          · exact hshape x hx
        · rcases hres with ⟨hok, hconf, hall⟩ | ⟨herr, hlen, hall⟩ | ⟨err, herr, hlen, hx, hall⟩
          · left
            refine ⟨hok, ?_, ?_⟩
            · rw [confirmed_cons, hconf]
              simp [Entry.confirmed]
            · intro x hx
              simp only [List.mem_cons] at hx
              rcases hx with hx | hx
              · simp [hx, Entry.failed, Entry.missing]
              · exact hall x hx
          · right; left
            refine ⟨herr, ?_, ?_⟩
            · rw [confirmed_cons]
              simp [Entry.confirmed]
              omega
            · intro x hx
              simp only [List.mem_cons] at hx
              rcases hx with hx | hx
              · rw [hx]; rfl
              · exact hall x hx
          · right; right
            obtain ⟨x, hx, hxf⟩ := hx
            refine ⟨err, herr, ?_, ⟨x, by simp [hx], hxf⟩, ?_⟩
            · rw [confirmed_cons]
              simp [Entry.confirmed]
              omega
            · intro y hy
              simp only [List.mem_cons] at hy
              rcases hy with hy | hy
              · rw [hy]; rfl
              · exact hall y hy

theorem unpinLoop_shape {σ : Type} (w : World σ) (node : Node) :
    ∀ (addrs : List Address) (s : σ), ∀ e ∈ (unpinLoop w node addrs s).1, e.ofCleanup node := by
  intro addrs
  induction addrs with
  | nil =>
    intro s e he
    simp [unpinLoop] at he
  | cons a rest ih =>
    intro s e he
    unfold unpinLoop at he
    rcases hr : w.UnpinChunk s node a with ⟨r, s1⟩
    rw [hr] at he
    cases r with
    | some err =>
      simp only [List.mem_cons] at he
      rcases he with he | he
      · exact ⟨_, _, he⟩
      · exact ih s1 e he
    | none =>
      simp only [List.mem_cons] at he
      rcases he with he | he
      · exact ⟨_, _, he⟩
      · exact ih s1 e he

end localpinning

/-! ## The pinned-content check: the run -/

namespace localpinning

theorem pivot_in_range {σ : Type} (w : World σ) (c : Cluster) (o : Options) (s0 s1 : σ)
    (overlays : List Address) (hsize : 0 < c.Size)
    (hov : w.Overlays s0 c = (.ok overlays, s1)) :
    ∃ node ov, c.Nodes.get? (w.Intn o.Seed c.Size) = some node ∧
      overlays.get? (w.Intn o.Seed c.Size) = some ov := by
  have hlt := w.Intn_lt o.Seed c.Size hsize
  have hlen := w.Overlays_length s0 c overlays s1 hov
  unfold Cluster.Size at hlt
  have h1 : w.Intn o.Seed c.Size < c.Nodes.length := by
    unfold Cluster.Size
    exact_mod_cast hlt
  have h2 : w.Intn o.Seed c.Size < overlays.length := by rw [hlen]; exact h1
  exact ⟨c.Nodes.get ⟨_, h1⟩, overlays.get ⟨_, h2⟩, List.get?_eq_get h1, List.get?_eq_get h2⟩

/-- How the part after the `defer` ends: the pinned upload fails, or the flood
fails, or the final look-up decides. -/
theorem afterDefer_cases {σ : Type} (w : World σ) (o : Options) (pivot : Nat) (node : Node)
    (size : Nat) (buf : List Nat) (addrs : List Address) (s : σ) :
    (∃ e, (afterDefer w o pivot node size buf addrs s).outcome
          = .error (GoErr.Errorf "node %d: upload bytes: %w" [(pivot : Int)] e) ∧
        (afterDefer w o pivot node size buf addrs s).log
          = [⟨.UploadBytes node buf true, .err e⟩]) ∨
      (∃ s1, w.UploadBytes s node buf true = (none, s1) ∧
        ((∃ err, (floodLoop w pivot node size o.StoreSizeDivisor.toNat s1).outcome
              = .error err ∧
            (afterDefer w o pivot node size buf addrs s).outcome = .error err ∧
            (afterDefer w o pivot node size buf addrs s).log
              = ⟨.UploadBytes node buf true, .ok⟩ ::
                (floodLoop w pivot node size o.StoreSizeDivisor.toNat s1).log) ∨
          ((floodLoop w pivot node size o.StoreSizeDivisor.toNat s1).outcome = .ok () ∧
            (afterDefer w o pivot node size buf addrs s).outcome
              = (hasLoop w node addrs
                  (floodLoop w pivot node size o.StoreSizeDivisor.toNat s1).final).outcome ∧
            (afterDefer w o pivot node size buf addrs s).log
              = ⟨.UploadBytes node buf true, .ok⟩ ::
                ((floodLoop w pivot node size o.StoreSizeDivisor.toNat s1).log ++
                  ⟨.Sleep, .ok⟩ :: (hasLoop w node addrs
                    (floodLoop w pivot node size o.StoreSizeDivisor.toNat s1).final).log)))) := by
  unfold afterDefer
  rcases hu : w.UploadBytes s node buf true with ⟨r, s1⟩
  cases r with
  | some e =>
    left
    exact ⟨e, rfl, rfl⟩
  | none =>
    right
    refine ⟨s1, rfl, ?_⟩
    simp only
    rcases (floodLoop_shape w pivot node size o.StoreSizeDivisor.toNat s1).2 with
      ⟨hok, _⟩ | ⟨err, herr, _⟩
    · right
      refine ⟨hok, ?_, ?_⟩ <;> simp only [hok]
    · left
      refine ⟨err, herr, ?_, ?_⟩ <;> simp only [herr]

/-- How a run goes: it ends before the `defer` (with an error or a panic, and
without any upload or look-up), or it reaches the pinned upload, and then its
result is the result of the part after the `defer` and its log is the preamble,
the log of that part and the log of the deferred clean-up. -/
theorem CheckBytesFound_cases {σ : Type} (w : World σ) (c : Cluster) (o : Options) (s0 : σ) :
    ((CheckBytesFound w c o s0).outcome ≠ .ok () ∧
        pinnedOk (CheckBytesFound w c o s0).log = [] ∧
        uploads (CheckBytesFound w c o s0).log = [] ∧
        (∀ e ∈ (CheckBytesFound w c o s0).log, e.missing = false) ∧
        ((∀ e ∈ (CheckBytesFound w c o s0).log, e.failed = false) →
          c.Size ≤ 0 ∨ o.StoreSizeDivisor = 0 ∨ payloadSize o < 0 ∨
            maxAlloc < payloadSize o)) ∨
      (0 < c.Size ∧ o.StoreSizeDivisor ≠ 0 ∧ 0 ≤ payloadSize o ∧ payloadSize o ≤ maxAlloc ∧
        ∃ f s2 addrs node, c.Nodes.get? (w.Intn o.Seed c.Size) = some node ∧
          w.addresses (fill (payloadSize o).toNat f) = .ok addrs ∧
          (CheckBytesFound w c o s0).outcome
            = (afterDefer w o (w.Intn o.Seed c.Size) node (payloadSize o).toNat
                (fill (payloadSize o).toNat f) addrs s2).outcome ∧
          (CheckBytesFound w c o s0).log
            = preamble (payloadSize o).toNat (fill (payloadSize o).toNat f) ++
              (afterDefer w o (w.Intn o.Seed c.Size) node (payloadSize o).toNat
                (fill (payloadSize o).toNat f) addrs s2).log ++
              (unpinLoop w node addrs
                (afterDefer w o (w.Intn o.Seed c.Size) node (payloadSize o).toNat
                  (fill (payloadSize o).toNat f) addrs s2).final).1) := by
  unfold CheckBytesFound
  rcases hov : w.Overlays s0 c with ⟨r, s1⟩
  cases r with
  | error e =>
    left
    simp [pinnedOk, uploads, Entry.pinnedOk, Entry.upload, Entry.missing, Entry.failed]
  | ok overlays =>
    simp only
    by_cases hsize : c.Size ≤ 0
    · left
      simp [hsize, pinnedOk, uploads, Entry.pinnedOk, Entry.upload, Entry.missing]
    by_cases hd : o.StoreSizeDivisor = 0
    · left
      simp [hsize, hd, pinnedOk, uploads, Entry.pinnedOk, Entry.upload, Entry.missing]
    by_cases hp : payloadSize o < 0 ∨ maxAlloc < payloadSize o
    · left
      simp only [hsize, hd, hp, if_false, if_true]
      refine ⟨by simp, rfl, rfl, ?_, fun _ => Or.inr (Or.inr trivial)⟩
      intro e he
      simp only [List.mem_singleton] at he
      rw [he]; rfl
    simp only [hsize, hd, hp, if_false]
    by_cases hal : w.Alloc s1 (payloadSize o).toNat = false
    · left
      simp only [hal, if_true]
      refine ⟨by simp, rfl, rfl, ?_, ?_⟩
      · intro e he
        simp only [List.mem_cons, List.mem_singleton, List.not_mem_nil, or_false] at he
        rcases he with he | he <;> rw [he] <;> rfl
      · intro h
        have := h ⟨.make (payloadSize o).toNat, .err outOfMemory⟩ (by simp)
        cases this
    simp only [hal, if_false]
    rcases hr : w.Read s1 (payloadSize o).toNat with ⟨r, s2⟩
    cases r with
    | error e =>
      left
      simp [pinnedOk, uploads, Entry.pinnedOk, Entry.upload, Entry.missing, Entry.failed]
    | ok f =>
      simp only
      cases ha : w.addresses (fill (payloadSize o).toNat f) with
      | error e =>
        left
        simp [pinnedOk, uploads, Entry.pinnedOk, Entry.upload, Entry.missing, Entry.failed]
      | ok addrs =>
        obtain ⟨node, ov, hnode, hover⟩ :=
          pivot_in_range w c o s0 s1 overlays (by omega) hov
        right
        simp only [hnode, hover]
        exact ⟨by omega, hd, by omega, by omega, f, s2, addrs, node, rfl, ha, rfl, rfl⟩

end localpinning

/-! ## The pinned-content check: what a log holds -/

namespace localpinning

theorem uploads_look (node : Node) (l : List Entry) (h : ∀ e ∈ l, e.ofLook node) :
    uploads l = [] := by
  apply List.filterMap_eq_nil_iff.mpr
  intro e he
  obtain ⟨a, ans, rfl⟩ := h e he
  rfl

theorem uploads_cleanup (node : Node) (l : List Entry) (h : ∀ e ∈ l, e.ofCleanup node) :
    uploads l = [] := by
  apply List.filterMap_eq_nil_iff.mpr
  intro e he
  obtain ⟨a, ans, rfl⟩ := h e he
  rfl

theorem pinnedOk_flood (node : Node) (size : Nat) (l : List Entry)
    (h : ∀ e ∈ l, e.ofFlood node size) : pinnedOk l = [] := by
  apply List.filterMap_eq_nil_iff.mpr
  intro e he
  rcases h e he with ⟨a, rfl⟩ | ⟨f, a, rfl⟩
  · rfl
  · rfl

theorem pinnedOk_look (node : Node) (l : List Entry) (h : ∀ e ∈ l, e.ofLook node) :
    pinnedOk l = [] := by
  apply List.filterMap_eq_nil_iff.mpr
  intro e he
  obtain ⟨a, ans, rfl⟩ := h e he
  rfl

theorem pinnedOk_cleanup (node : Node) (l : List Entry) (h : ∀ e ∈ l, e.ofCleanup node) :
    pinnedOk l = [] := by
  apply List.filterMap_eq_nil_iff.mpr
  intro e he
  obtain ⟨a, ans, rfl⟩ := h e he
  rfl

theorem confirmed_flood (node : Node) (size : Nat) (l : List Entry)
    (h : ∀ e ∈ l, e.ofFlood node size) : confirmed l = [] := by
  apply List.filterMap_eq_nil_iff.mpr
  intro e he
  rcases h e he with ⟨a, rfl⟩ | ⟨f, a, rfl⟩
  · rfl
  · rfl

theorem confirmed_cleanup (node : Node) (l : List Entry) (h : ∀ e ∈ l, e.ofCleanup node) :
    confirmed l = [] := by
  apply List.filterMap_eq_nil_iff.mpr
  intro e he
  obtain ⟨a, ans, rfl⟩ := h e he
  rfl

theorem unpinnedOk_look (node : Node) (l : List Entry) (h : ∀ e ∈ l, e.ofLook node) :
    unpinnedOk l = 0 := by
  unfold unpinnedOk
  rw [List.length_eq_zero, List.filter_eq_nil_iff]
  intro e he
  obtain ⟨a, ans, rfl⟩ := h e he
  simp [Entry.unpinnedOk]

theorem unpinnedOk_cleanup (node : Node) (l : List Entry) (h : ∀ e ∈ l, e.ofCleanup node) :
    unpinnedOk l = 0 := by
  unfold unpinnedOk
  rw [List.length_eq_zero, List.filter_eq_nil_iff]
  intro e he
  obtain ⟨a, ans, rfl⟩ := h e he
  simp [Entry.unpinnedOk]

theorem missing_flood (node : Node) (size : Nat) (e : Entry) (h : e.ofFlood node size) :
    e.missing = false := by
  rcases h with ⟨a, rfl⟩ | ⟨f, a, rfl⟩
  · rfl
  · rfl

theorem missing_cleanup (node : Node) (e : Entry) (h : e.ofCleanup node) :
    e.missing = false := by
  obtain ⟨a, ans, rfl⟩ := h
  rfl

/-- The uploads of a run that reaches the flood and in which no call fails. -/
theorem run_uploads {σ : Type} (w : World σ) (c : Cluster) (o : Options) (s0 : σ)
    (hsize : 0 < c.Size) (hd : o.StoreSizeDivisor ≠ 0) (hp : 0 ≤ payloadSize o)
    (hm : payloadSize o ≤ maxAlloc)
    (hq : ∀ e ∈ (CheckBytesFound w c o s0).log, e.failed = false) :
    ∃ node, c.Nodes.get? (w.Intn o.Seed c.Size) = some node ∧
      uploads (CheckBytesFound w c o s0).log
        = (node, (payloadSize o).toNat, true) ::
          List.replicate o.StoreSizeDivisor.toNat (node, (payloadSize o).toNat, false) := by
  rcases CheckBytesFound_cases w c o s0 with
    ⟨_, _, _, _, h⟩ | ⟨_, _, _, _, f, s2, addrs, node, hnode, _, _, hlog⟩
  · rcases h hq with h | h | h | h
    · omega
    · exact absurd h hd
    · omega
    · omega
  · refine ⟨node, hnode, ?_⟩
    rw [hlog] at hq ⊢
    have hclean := unpinLoop_shape w node addrs
      (afterDefer w o (w.Intn o.Seed c.Size) node (payloadSize o).toNat
        (fill (payloadSize o).toNat f) addrs s2).final
    rw [uploads_append, uploads_append, uploads_cleanup node _ hclean]
    rcases afterDefer_cases w o (w.Intn o.Seed c.Size) node (payloadSize o).toNat
        (fill (payloadSize o).toNat f) addrs s2 with
      ⟨e, _, hl⟩ | ⟨s3, _, ⟨err, herr, _, hl⟩ | ⟨hok, _, hl⟩⟩
    · have := hq ⟨.UploadBytes node (fill (payloadSize o).toNat f) true, .err e⟩
        (by rw [hl]; simp)
      cases this
    · rcases (floodLoop_shape w (w.Intn o.Seed c.Size) node (payloadSize o).toNat
          o.StoreSizeDivisor.toNat s3).2 with ⟨hok, _⟩ | ⟨_, _, _, x, hx, hxf⟩
      · rw [hok] at herr; cases herr
      · have := hq x (by rw [hl]; simp [hx])
        rw [this] at hxf; cases hxf
    · obtain ⟨hflood, hres⟩ := floodLoop_shape w (w.Intn o.Seed c.Size) node
        (payloadSize o).toNat o.StoreSizeDivisor.toNat s3
      rcases hres with ⟨_, _, hup, _⟩ | ⟨err, herr, _⟩
      · have hlook := (hasLoop_shape w node addrs
          (floodLoop w (w.Intn o.Seed c.Size) node (payloadSize o).toNat
            o.StoreSizeDivisor.toNat s3).final).1
        rw [hl, uploads_cons, uploads_append, uploads_cons, uploads_look node _ hlook, hup]
        simp [preamble, uploads, Entry.upload, fill_length]
      · rw [hok] at herr; cases herr

theorem uploads_flood (node : Node) (size : Nat) (l : List Entry)
    (h : ∀ e ∈ l, e.ofFlood node size) : ∀ u ∈ uploads l, u.2.1 = size := by
  intro u hu
  unfold uploads at hu
  rw [List.mem_filterMap] at hu
  obtain ⟨e, he, heu⟩ := hu
  rcases h e he with ⟨a, rfl⟩ | ⟨f, a, rfl⟩
  · cases heu
  · simp only [Entry.upload, Option.some.injEq] at heu
    rw [← heu]
    exact fill_length size f

/-- Every upload of a run, whatever the world answers, has the size
`(o.StoreSize / o.StoreSizeDivisor) * swarm.ChunkSize` of the buffer. -/
theorem run_upload_sizes {σ : Type} (w : World σ) (c : Cluster) (o : Options) (s0 : σ) :
    ∀ u ∈ uploads (CheckBytesFound w c o s0).log, u.2.1 = (payloadSize o).toNat := by
  intro u hu
  rcases CheckBytesFound_cases w c o s0 with
    ⟨_, _, hup, _, _⟩ | ⟨_, _, _, _, f, s2, addrs, node, _, _, _, hlog⟩
  · rw [hup] at hu
    cases hu
  · have hclean := unpinLoop_shape w node addrs
      (afterDefer w o (w.Intn o.Seed c.Size) node (payloadSize o).toNat
        (fill (payloadSize o).toNat f) addrs s2).final
    have hpre : uploads (preamble (payloadSize o).toNat (fill (payloadSize o).toNat f)) = [] :=
      rfl
    rw [hlog, uploads_append, uploads_append, uploads_cleanup node _ hclean, hpre,
      List.nil_append, List.append_nil] at hu
    rcases afterDefer_cases w o (w.Intn o.Seed c.Size) node (payloadSize o).toNat
        (fill (payloadSize o).toNat f) addrs s2 with
      ⟨e, _, hl⟩ | ⟨s3, _, ⟨err, _, _, hl⟩ | ⟨_, _, hl⟩⟩
    · rw [hl] at hu
      simp only [uploads, Entry.upload, List.filterMap_cons, List.filterMap_nil,
        List.mem_singleton] at hu
      rw [hu]
      exact fill_length _ f
    · have hflood := (floodLoop_shape w (w.Intn o.Seed c.Size) node (payloadSize o).toNat
        o.StoreSizeDivisor.toNat s3).1
      rw [hl, uploads_cons] at hu
      simp only [Entry.upload, List.mem_append, List.mem_singleton] at hu
      rcases hu with hu | hu
      · rw [hu]
        exact fill_length _ f
      · exact uploads_flood node _ _ hflood u hu
    · have hflood := (floodLoop_shape w (w.Intn o.Seed c.Size) node (payloadSize o).toNat
        o.StoreSizeDivisor.toNat s3).1
      have hlook := (hasLoop_shape w node addrs
        (floodLoop w (w.Intn o.Seed c.Size) node (payloadSize o).toNat
          o.StoreSizeDivisor.toNat s3).final).1
      rw [hl, uploads_cons, uploads_append, uploads_cons, uploads_look node _ hlook] at hu
      simp only [Entry.upload, List.mem_append, List.mem_singleton, List.append_nil,
        List.not_mem_nil, or_false] at hu
      rcases hu with hu | hu
      · rw [hu]
        exact fill_length _ f
      · exact uploads_flood node _ _ hflood u hu

/-- When the buffer is empty the unpinned uploads of a run carry no byte. -/
theorem unpinnedBytes_empty {σ : Type} (w : World σ) (c : Cluster) (o : Options) (s0 : σ)
    (h : (payloadSize o).toNat = 0) : unpinnedBytes (CheckBytesFound w c o s0).log = 0 := by
  unfold unpinnedBytes
  apply List.sum_eq_zero
  intro x hx
  rw [List.mem_map] at hx
  obtain ⟨u, hu, rfl⟩ := hx
  rw [← h]
  exact run_upload_sizes w c o s0 u (List.mem_filter.mp hu).1

theorem unpinnedBytes_flood (node : Node) (n k : Nat) (log : List Entry)
    (h : uploads log = (node, n, true) :: List.replicate k (node, n, false)) :
    unpinnedBytes log = k * n := by
  unfold unpinnedBytes
  rw [h]
  simp [List.filter_cons, List.filter_replicate]

end localpinning

/-! ## The pinned-content check: worlds without failure -/

namespace localpinning

theorem floodLoop_quiet {σ : Type} (w : World σ) (hw : w.quiet) (pivot : Nat) (node : Node)
    (size : Nat) : ∀ (k : Nat) (s : σ),
      ∀ e ∈ (floodLoop w pivot node size k s).log, e.failed = false := by
  intro k
  induction k with
  | zero =>
    intro s e he
    simp [floodLoop] at he
  | succ k ih =>
    intro s e he
    unfold floodLoop at he
    obtain ⟨f, hf⟩ := hw.2.2.1 s size
    rcases hr : w.Read s size with ⟨r, s1⟩
    rw [hr] at hf he
    simp only at hf
    subst hf
    simp only at he
    have hu := hw.2.2.2.2.1 s1 node (fill size f) false
    rcases hu2 : w.UploadBytes s1 node (fill size f) false with ⟨r2, s2⟩
    rw [hu2] at hu he
    simp only at hu
    subst hu
    simp only [List.mem_cons] at he
    rcases he with he | he | he
    · rw [he]; rfl
    · rw [he]; rfl
    · exact ih s2 e he

theorem hasLoop_quiet {σ : Type} (w : World σ) (hw : w.quiet) (node : Node) :
    ∀ (addrs : List Address) (s : σ), ∀ e ∈ (hasLoop w node addrs s).log, e.failed = false := by
  intro addrs
  induction addrs with
  | nil =>
    intro s e he
    simp [hasLoop] at he
  | cons a rest ih =>
    intro s e he
    unfold hasLoop at he
    obtain ⟨b, hb⟩ := hw.2.2.2.2.2.1 s node a 1
    rcases hr : w.HasChunkRetry s node a 1 with ⟨r, s1⟩
    rw [hr] at hb he
    simp only at hb
    subst hb
    cases b with
    | false =>
      simp only [List.mem_singleton] at he
      rw [he]; rfl
    | true =>
      simp only [List.mem_cons] at he
      rcases he with he | he
      · rw [he]; rfl
      · exact ih s1 e he

theorem unpinLoop_quiet {σ : Type} (w : World σ) (hw : w.quiet) (node : Node) :
    ∀ (addrs : List Address) (s : σ), ∀ e ∈ (unpinLoop w node addrs s).1, e.failed = false := by
  intro addrs
  induction addrs with
  | nil =>
    intro s e he
    simp [unpinLoop] at he
  | cons a rest ih =>
    intro s e he
    unfold unpinLoop at he
    have hu := hw.2.2.2.2.2.2 s node a
    rcases hr : w.UnpinChunk s node a with ⟨r, s1⟩
    rw [hr] at hu he
    simp only at hu
    subst hu
    simp only [List.mem_cons] at he
    rcases he with he | he
    · rw [he]; rfl
    · exact ih s1 e he

/-- In a world without failure no call of a run fails. -/
theorem CheckBytesFound_quiet {σ : Type} (w : World σ) (hw : w.quiet) (c : Cluster)
    (o : Options) (s0 : σ) : ∀ e ∈ (CheckBytesFound w c o s0).log, e.failed = false := by
  intro e he
  unfold CheckBytesFound at he
  obtain ⟨ov, hov⟩ := hw.1 s0 c
  rcases hr : w.Overlays s0 c with ⟨r, s1⟩
  rw [hr] at hov he
  simp only at hov
  subst hov
  simp only at he
  split_ifs at he with h1 h2 h3 h4
  · simp only [List.mem_singleton] at he
    rw [he]; rfl
  · simp only [List.mem_singleton] at he
    rw [he]; rfl
  · simp only [List.mem_singleton] at he
    rw [he]; rfl
  · rw [hw.2.1 s1 (payloadSize o).toNat] at h4
    cases h4
  · obtain ⟨f, hf⟩ := hw.2.2.1 s1 (payloadSize o).toNat
    rcases hrd : w.Read s1 (payloadSize o).toNat with ⟨r2, s2⟩
    rw [hrd] at hf he
    simp only at hf
    subst hf
    simp only at he
    obtain ⟨addrs, ha⟩ := hw.2.2.2.1 (fill (payloadSize o).toNat f)
    rw [ha] at he
    simp only at he
    split at he
    · rename_i node _ _ _
      simp only [List.mem_append, List.mem_cons, List.mem_singleton, List.not_mem_nil,
        or_false] at he
      rcases he with ((he | he | he | he) | he) | he
      · rw [he]; rfl
      · rw [he]; rfl
      · rw [he]; rfl
      · rw [he]; rfl
      · unfold afterDefer at he
        have hu := hw.2.2.2.2.1 s2 node (fill (payloadSize o).toNat f) true
        rcases hu2 : w.UploadBytes s2 node (fill (payloadSize o).toNat f) true with ⟨r3, s3⟩
        rw [hu2] at hu he
        simp only at hu
        subst hu
        simp only at he
        split at he
        · simp only [List.mem_cons] at he
          rcases he with he | he
          · rw [he]; rfl
          · exact floodLoop_quiet w hw _ _ _ _ _ e he
        · simp only [List.mem_cons] at he
          rcases he with he | he
          · rw [he]; rfl
          · exact floodLoop_quiet w hw _ _ _ _ _ e he
        · simp only [List.mem_cons, List.mem_append] at he
          rcases he with he | he | he | he
          · rw [he]; rfl
          · exact floodLoop_quiet w hw _ _ _ _ _ e he
          · rw [he]; rfl
          · exact hasLoop_quiet w hw _ _ _ e he
      · exact unpinLoop_quiet w hw _ _ _ e he
    · simp only [List.mem_cons, List.mem_singleton, List.not_mem_nil, or_false] at he
      rcases he with he | he | he | he
      · rw [he]; rfl
      · rw [he]; rfl
      · rw [he]; rfl
      · rw [he]; rfl

theorem streamWorld_quiet : streamWorld.quiet :=
  ⟨fun _ c => ⟨c.Nodes, rfl⟩, fun _ _ => rfl, fun s _ => ⟨fun i => (s + i) % 256, rfl⟩,
    fun buf => ⟨List.range (buf.length / 4096), rfl⟩, fun _ _ _ _ => rfl,
    fun _ _ _ _ => ⟨true, rfl⟩, fun _ _ _ => rfl⟩

/-- The first payload of a run that reaches the pinned upload is the buffer
that `math/rand.Read` filled. -/
theorem payloads_head {σ : Type} (w : World σ) (c : Cluster) (o : Options) (s0 s1 s2 : σ)
    (ov : List Address) (f : Nat → Nat) (addrs : List Address)
    (hsize : 0 < c.Size) (hd : o.StoreSizeDivisor ≠ 0) (hp : 0 ≤ payloadSize o)
    (hm : payloadSize o ≤ maxAlloc)
    (hov : w.Overlays s0 c = (.ok ov, s1))
    (hal : w.Alloc s1 (payloadSize o).toNat = true)
    (hr : w.Read s1 (payloadSize o).toNat = (.ok f, s2))
    (ha : w.addresses (fill (payloadSize o).toNat f) = .ok addrs) :
    (payloads (CheckBytesFound w c o s0).log).head?
      = some (fill (payloadSize o).toNat f, true) := by
  obtain ⟨node, ov1, hnode, hover⟩ := pivot_in_range w c o s0 s1 ov hsize hov
  unfold CheckBytesFound
  rw [hov]
  have hrange : ¬ (payloadSize o < 0 ∨ maxAlloc < payloadSize o) := by omega
  simp only [not_le.mpr hsize, hd, hrange, hal, Bool.true_eq_false, if_false, hr, ha, hnode,
    hover]
  rw [payloads_append, payloads_append]
  rcases afterDefer_cases w o (w.Intn o.Seed c.Size) node (payloadSize o).toNat
      (fill (payloadSize o).toNat f) addrs s2 with
    ⟨e, _, hl⟩ | ⟨s3, _, ⟨err, _, _, hl⟩ | ⟨_, _, hl⟩⟩ <;>
  · rw [hl, payloads_cons]
    simp [payloads, Entry.payload]

theorem fill_first (n : Nat) (f : Nat → Nat) (h : 0 < n) : (fill n f)[0]? = some (f 0) := by
  simp [fill, List.getElem?_map, List.getElem?_range h]

end localpinning

/-! ## Claims on the pinned-content check -/

namespace localpinning

/-- C1, counterexample. With `StoreSize = 2^52 + 1` and `StoreSizeDivisor = 1`
the size `(StoreSize / StoreSizeDivisor) * ChunkSize` is 2^64 + 4096 and wraps
to 4096 in `int`: in a run in which no call fails the check uploads one pinned
and one unpinned payload of 4096 bytes (one chunk), not of 2^52 + 1 chunks. -/
theorem flood_size_wraps :
    0 ≤ wrapOptions.StoreSize ∧ 0 < wrapOptions.StoreSizeDivisor ∧ 0 < oneNode.Size ∧
      (∀ e ∈ (CheckBytesFound streamWorld oneNode wrapOptions 0).log, e.failed = false) ∧
      payloadSize wrapOptions = 4096 ∧
      uploads (CheckBytesFound streamWorld oneNode wrapOptions 0).log
        = [(0, 4096, true), (0, 4096, false)] ∧
      ¬ pinnedThenFlood oneNode wrapOptions (streamWorld.Intn wrapOptions.Seed oneNode.Size)
        (CheckBytesFound streamWorld oneNode wrapOptions 0).log := by
  have hq := CheckBytesFound_quiet streamWorld streamWorld_quiet oneNode wrapOptions 0
  have hps : payloadSize wrapOptions = 4096 := by decide
  have hup : uploads (CheckBytesFound streamWorld oneNode wrapOptions 0).log
      = [(0, 4096, true), (0, 4096, false)] := by
    obtain ⟨node, hnode, h⟩ := run_uploads streamWorld oneNode wrapOptions 0 (by decide)
      (by decide) (by decide) (by decide) hq
    have hn : node = 0 := by
      have : oneNode.Nodes.get? 0 = some node := hnode
      simpa [oneNode] using this.symm
    subst hn
    rw [h, hps]
    rfl
  refine ⟨by decide, by decide, by decide, hq, hps, hup, ?_⟩
  rintro ⟨node, _, h⟩
  rw [hup] at h
  have h1 := congrArg (fun l => (l.head?.map (fun u => u.2.1))) h
  simp only [List.head?_cons, Option.map_some'] at h1
  have h2 : (Int.tdiv wrapOptions.StoreSize wrapOptions.StoreSizeDivisor * ChunkSize).toNat
      = 18446744073709555712 := by
    simp [wrapOptions, ChunkSize]
  rw [h2] at h1
  cases h1

/-- C1, amended. For every Options with `StoreSize ≥ 0`, `StoreSizeDivisor > 0`
and a payload size `(StoreSize / StoreSizeDivisor) * ChunkSize` of at most
`maxAlloc` = 2^48 bytes, the largest buffer that `make` allocates (such a size
also fits `int`), and every cluster with `Size > 0`, a run in which no call
fails, the allocation of the buffer included, issues, all to the node
`c.Nodes[pivot]`, one pinned upload of `(StoreSize / StoreSizeDivisor) *
ChunkSize` bytes and then exactly `StoreSizeDivisor` unpinned uploads of that
size, which total `StoreSizeDivisor * (StoreSize / StoreSizeDivisor)` chunks;
for 48 and 12 the payload has 4 chunks and the 12 unpinned ones total 48
chunks. -/
theorem pinned_then_flood {σ : Type} (w : World σ) (c : Cluster) (o : Options) (s0 : σ)
    (hS : 0 ≤ o.StoreSize) (hD : 0 < o.StoreSizeDivisor)
    (hfit : Int.tdiv o.StoreSize o.StoreSizeDivisor * ChunkSize ≤ maxAlloc)
    (hsize : 0 < c.Size)
    (hq : ∀ e ∈ (CheckBytesFound w c o s0).log, e.failed = false) :
    pinnedThenFlood c o (w.Intn o.Seed c.Size) (CheckBytesFound w c o s0).log ∧
      (unpinnedBytes (CheckBytesFound w c o s0).log : Int)
        = o.StoreSizeDivisor * Int.tdiv o.StoreSize o.StoreSizeDivisor * ChunkSize ∧
      payloadSize scenarioOptions = 4 * ChunkSize ∧
      scenarioOptions.StoreSizeDivisor * Int.tdiv scenarioOptions.StoreSize
        scenarioOptions.StoreSizeDivisor = 48 := by
  have hps := payloadSize_eq o hS hD (lt_of_le_of_lt hfit (by decide))
  have hq0 : 0 ≤ Int.tdiv o.StoreSize o.StoreSizeDivisor := Int.tdiv_nonneg hS (le_of_lt hD)
  have hp : 0 ≤ payloadSize o := by
    rw [hps]
    exact Int.mul_nonneg hq0 (by decide)
  have hm : payloadSize o ≤ maxAlloc := by
    rw [hps]
    exact hfit
  obtain ⟨node, hnode, hup⟩ := run_uploads w c o s0 hsize (by omega) hp hm hq
  rw [hps] at hup
  refine ⟨⟨node, hnode, hup⟩, ?_, by decide, by decide⟩
  rw [unpinnedBytes_flood node _ _ _ hup]
  push_cast
  rw [Int.toNat_of_nonneg (le_of_lt hD),
    Int.toNat_of_nonneg (Int.mul_nonneg hq0 (by decide))]
  ring

/-- Witness for C1: the scenario of the spec, 48 chunks and divisor 12, on one
node with no failing call: one pinned payload of 4 chunks, then 12 unpinned
payloads of 4 chunks. -/
theorem pinned_then_flood_witness :
    uploads (CheckBytesFound streamWorld oneNode scenarioOptions 0).log
        = (0, 4 * 4096, true) :: List.replicate 12 (0, 4 * 4096, false) ∧
      unpinnedBytes (CheckBytesFound streamWorld oneNode scenarioOptions 0).log
        = 48 * 4096 := by
  have h := pinned_then_flood streamWorld oneNode scenarioOptions 0 (by decide) (by decide)
    (by decide) (by decide) (CheckBytesFound_quiet streamWorld streamWorld_quiet _ _ _)
  obtain ⟨⟨node, hnode, hup⟩, hbytes, _, _⟩ := h
  have hn : node = 0 := by
    have : oneNode.Nodes.get? 0 = some node := hnode
    simpa [oneNode] using this.symm
  subst hn
  refine ⟨hup, ?_⟩
  have : (unpinnedBytes (CheckBytesFound streamWorld oneNode scenarioOptions 0).log : Int)
      = 48 * 4096 := by
    rw [hbytes]
    decide
  exact_mod_cast this

/-- Above the limit of one allocation. With `StoreSize = 2^40` and
`StoreSizeDivisor = 1` the payload size is 2^52 bytes, which fits `int` but
exceeds `maxAlloc`: `make` panics before anything is uploaded. -/
theorem makeslice_beyond_limit :
    payloadSize hugeOptions = 2 ^ 52 ∧ payloadSize hugeOptions < 2 ^ 63 ∧
      maxAlloc < payloadSize hugeOptions ∧
      (CheckBytesFound streamWorld oneNode hugeOptions 0).outcome
        = .panic "makeslice: len out of range" ∧
      uploads (CheckBytesFound streamWorld oneNode hugeOptions 0).log = [] := by
  refine ⟨by decide, by decide, by decide, by decide, by decide⟩

/-- C4. With `StoreSize = 5` and `StoreSizeDivisor = 12` the integer quotient
`5 / 12` is 0 and the buffer is empty: in every run, whatever the world
answers, every upload carries 0 bytes, so the unpinned payloads total 0 bytes,
less than `StoreSize`; and a run in which no call fails does upload an empty
pinned payload and 12 empty unpinned payloads and returns nil.  The code does
not meet the bound of the claim, and it uploads no byte at all, where its own
description has it upload some bytes and then a lot of other chunks. -/
theorem flood_below_store {σ : Type} (w : World σ) (c : Cluster) (s0 : σ) :
    0 ≤ smallOptions.StoreSize ∧ 0 < smallOptions.StoreSizeDivisor ∧
      (∀ u ∈ uploads (CheckBytesFound w c smallOptions s0).log, u.2.1 = 0) ∧
      unpinnedBytes (CheckBytesFound w c smallOptions s0).log = 0 ∧
      ¬ (smallOptions.StoreSize
          ≤ (unpinnedBytes (CheckBytesFound w c smallOptions s0).log : Int)) ∧
      ¬ (smallOptions.StoreSize
          ≤ smallOptions.StoreSizeDivisor * payloadSize smallOptions) ∧
      (∀ e ∈ (CheckBytesFound streamWorld oneNode smallOptions 0).log, e.failed = false) ∧
      (CheckBytesFound streamWorld oneNode smallOptions 0).outcome = .ok () ∧
      uploads (CheckBytesFound streamWorld oneNode smallOptions 0).log
        = (0, 0, true) :: List.replicate 12 (0, 0, false) := by
  have hsz : (payloadSize smallOptions).toNat = 0 := by decide
  have h0 := unpinnedBytes_empty w c smallOptions s0 hsz
  refine ⟨by decide, by decide, ?_, h0, ?_, by decide, by decide, by decide, by decide⟩
  · intro u hu
    rw [← hsz]
    exact run_upload_sizes w c smallOptions s0 u hu
  · rw [h0]
    decide

/-- Where the code does cover the store: for every Options with
`StoreSizeDivisor > 0`, with `StoreSize = 0` or `StoreSize ≥ StoreSizeDivisor`,
and with a payload size of at most `maxAlloc`, the unpinned payloads that a run
without a failing call uploads after pinning total `StoreSizeDivisor *
(StoreSize / StoreSizeDivisor) * ChunkSize` bytes, which is at least
`StoreSize`. -/
theorem flood_covers_store {σ : Type} (w : World σ) (c : Cluster) (o : Options) (s0 : σ)
    (hD : 0 < o.StoreSizeDivisor)
    (hDS : o.StoreSize = 0 ∨ o.StoreSizeDivisor ≤ o.StoreSize)
    (hfit : Int.tdiv o.StoreSize o.StoreSizeDivisor * ChunkSize ≤ maxAlloc)
    (hsize : 0 < c.Size)
    (hq : ∀ e ∈ (CheckBytesFound w c o s0).log, e.failed = false) :
    (unpinnedBytes (CheckBytesFound w c o s0).log : Int)
        = o.StoreSizeDivisor * payloadSize o ∧
      o.StoreSizeDivisor * payloadSize o
        = o.StoreSizeDivisor * Int.tdiv o.StoreSize o.StoreSizeDivisor * ChunkSize ∧
      o.StoreSize ≤ o.StoreSizeDivisor * Int.tdiv o.StoreSize o.StoreSizeDivisor * ChunkSize ∧
      o.StoreSize ≤ (unpinnedBytes (CheckBytesFound w c o s0).log : Int) := by
  have hS : 0 ≤ o.StoreSize := by
    rcases hDS with h | h
    · omega
    · omega
  have hps := payloadSize_eq o hS hD (lt_of_le_of_lt hfit (by decide))
  have hq0 : 0 ≤ Int.tdiv o.StoreSize o.StoreSizeDivisor := Int.tdiv_nonneg hS (le_of_lt hD)
  have hp : 0 ≤ payloadSize o := by
    rw [hps]
    exact Int.mul_nonneg hq0 (by decide)
  have hm : payloadSize o ≤ maxAlloc := by
    rw [hps]
    exact hfit
  obtain ⟨node, _, hup⟩ := run_uploads w c o s0 hsize (by omega) hp hm hq
  have hbytes : (unpinnedBytes (CheckBytesFound w c o s0).log : Int)
      = o.StoreSizeDivisor * payloadSize o := by
    rw [unpinnedBytes_flood node _ _ _ hup]
    push_cast
    rw [Int.toNat_of_nonneg (le_of_lt hD), Int.toNat_of_nonneg hp]
  have hmath : o.StoreSize
      ≤ o.StoreSizeDivisor * Int.tdiv o.StoreSize o.StoreSizeDivisor * ChunkSize := by
    have hdm := Int.tdiv_add_tmod o.StoreSize o.StoreSizeDivisor
    have hr : Int.tmod o.StoreSize o.StoreSizeDivisor < o.StoreSizeDivisor :=
      Int.tmod_lt_of_pos _ hD
    unfold ChunkSize
    rcases hDS with h | h
    · rw [h]
      simp
    · have hq1 : 1 ≤ Int.tdiv o.StoreSize o.StoreSizeDivisor := by
        by_contra hlt
        have hz : Int.tdiv o.StoreSize o.StoreSizeDivisor = 0 := by omega
        rw [hz] at hdm
        omega
      have hprod : o.StoreSizeDivisor
          ≤ o.StoreSizeDivisor * Int.tdiv o.StoreSize o.StoreSizeDivisor :=
        le_mul_of_one_le_right (le_of_lt hD) hq1
      nlinarith
  refine ⟨hbytes, ?_, hmath, ?_⟩
  · rw [hps]; ring
  · rw [hbytes, hps]
    calc o.StoreSize
        ≤ o.StoreSizeDivisor * Int.tdiv o.StoreSize o.StoreSizeDivisor * ChunkSize := hmath
      _ = o.StoreSizeDivisor * (Int.tdiv o.StoreSize o.StoreSizeDivisor * ChunkSize) := by ring

/-- The scenario of the spec, 48 chunks and divisor 12, covers its store. -/
theorem flood_covers_store_scenario :
    scenarioOptions.StoreSize
      ≤ (unpinnedBytes (CheckBytesFound streamWorld oneNode scenarioOptions 0).log : Int) :=
  (flood_covers_store streamWorld oneNode scenarioOptions 0 (by decide)
    (Or.inr (by decide)) (by decide) (by decide)
    (CheckBytesFound_quiet streamWorld streamWorld_quiet _ _ _)).2.2.2

/-- C5. Two runs with the same Options (seed 7) on the same cluster, in neither
of which a call fails, select the same pivot but upload different pinned
payloads when the process-wide source of `math/rand` is in a different state
(here: at position 0 and at position 1): the payload is drawn by the
package-level `rand.Read`, not from the generator seeded with `o.Seed`. -/
theorem payload_not_from_seed :
    (∀ e ∈ (CheckBytesFound streamWorld oneNode seedOptions 0).log, e.failed = false) ∧
      (∀ e ∈ (CheckBytesFound streamWorld oneNode seedOptions 1).log, e.failed = false) ∧
      (payloads (CheckBytesFound streamWorld oneNode seedOptions 0).log).head?
        = some (fill 4096 (fun i => (0 + i) % 256), true) ∧
      (payloads (CheckBytesFound streamWorld oneNode seedOptions 1).log).head?
        = some (fill 4096 (fun i => (1 + i) % 256), true) ∧
      (payloads (CheckBytesFound streamWorld oneNode seedOptions 0).log).head?
        ≠ (payloads (CheckBytesFound streamWorld oneNode seedOptions 1).log).head? := by
  have hsz : (payloadSize seedOptions).toNat = 4096 := by decide
  have h0 := payloads_head streamWorld oneNode seedOptions 0 0 _ oneNode.Nodes
    (fun i => (0 + i) % 256) _ (by decide) (by decide) (by decide) (by decide) rfl rfl rfl rfl
  have h1 := payloads_head streamWorld oneNode seedOptions 1 1 _ oneNode.Nodes
    (fun i => (1 + i) % 256) _ (by decide) (by decide) (by decide) (by decide) rfl rfl rfl rfl
  rw [hsz] at h0 h1
  refine ⟨CheckBytesFound_quiet streamWorld streamWorld_quiet _ _ _,
    CheckBytesFound_quiet streamWorld streamWorld_quiet _ _ _, h0, h1, ?_⟩
  rw [h0, h1]
  intro h
  have h2 : fill 4096 (fun i => (0 + i) % 256) = fill 4096 (fun i => (1 + i) % 256) :=
    (Prod.mk.inj (Option.some.inj h)).1
  have h3 := congrArg (fun l : List Nat => l[0]?) h2
  simp only [fill_first 4096 _ (by decide)] at h3
  cases h3

end localpinning

/-! ## The pinned-content check: the result -/

namespace localpinning

/-- What the log of the part after the `defer` holds, by the way it ends. -/
theorem body_measures {σ : Type} (w : World σ) (o : Options) (pivot : Nat) (node : Node)
    (size : Nat) (buf : List Nat) (addrs : List Address) (s : σ) :
    ((afterDefer w o pivot node size buf addrs s).outcome ≠ .ok () ∧
        pinnedOk (afterDefer w o pivot node size buf addrs s).log = []) ∨
      ((afterDefer w o pivot node size buf addrs s).outcome ≠ .ok () ∧
        unpinnedOk (afterDefer w o pivot node size buf addrs s).log
          < o.StoreSizeDivisor.toNat) ∨
      (pinnedOk (afterDefer w o pivot node size buf addrs s).log = [(node, buf)] ∧
        unpinnedOk (afterDefer w o pivot node size buf addrs s).log
          = o.StoreSizeDivisor.toNat ∧
        (((afterDefer w o pivot node size buf addrs s).outcome = .ok () ∧
            confirmed (afterDefer w o pivot node size buf addrs s).log
              = addrs.map (fun a => (node, a))) ∨
          ((afterDefer w o pivot node size buf addrs s).outcome ≠ .ok () ∧
            (confirmed (afterDefer w o pivot node size buf addrs s).log).length
              < addrs.length))) := by
  rcases afterDefer_cases w o pivot node size buf addrs s with
    ⟨e, hout, hl⟩ | ⟨s1, _, ⟨err, herr, hout, hl⟩ | ⟨hok, hout, hl⟩⟩
  · left
    rw [hout, hl]
    exact ⟨by simp, rfl⟩
  · right; left
    obtain ⟨hflood, hres⟩ := floodLoop_shape w pivot node size o.StoreSizeDivisor.toNat s1
    rw [hout, hl]
    refine ⟨by simp, ?_⟩
    rcases hres with ⟨hok, _⟩ | ⟨_, _, hlt, _⟩
    · rw [hok] at herr; cases herr
    · rw [unpinnedOk_cons]
      simpa [Entry.unpinnedOk] using hlt
  · right; right
    obtain ⟨hflood, hres⟩ := floodLoop_shape w pivot node size o.StoreSizeDivisor.toNat s1
    obtain ⟨hlook, hlres⟩ := hasLoop_shape w node addrs
      (floodLoop w pivot node size o.StoreSizeDivisor.toNat s1).final
    have hcount : unpinnedOk (floodLoop w pivot node size o.StoreSizeDivisor.toNat s1).log
        = o.StoreSizeDivisor.toNat := by
      rcases hres with ⟨_, h, _⟩ | ⟨err, herr, _⟩
      · exact h
      · rw [hok] at herr; cases herr
    have hconf : confirmed (afterDefer w o pivot node size buf addrs s).log
        = confirmed (hasLoop w node addrs
          (floodLoop w pivot node size o.StoreSizeDivisor.toNat s1).final).log := by
      rw [hl, confirmed_cons, confirmed_append, confirmed_flood node size _ hflood,
        confirmed_cons]
      simp [Entry.confirmed]
    refine ⟨?_, ?_, ?_⟩
    · rw [hl, pinnedOk_cons, pinnedOk_append, pinnedOk_flood node size _ hflood,
        pinnedOk_cons, pinnedOk_look node _ hlook]
      simp [Entry.pinnedOk]
    · rw [hl, unpinnedOk_cons, unpinnedOk_append, unpinnedOk_cons,
        unpinnedOk_look node _ hlook, hcount]
      simp [Entry.unpinnedOk]
    · rw [hout, hconf]
      rcases hlres with ⟨h1, h2, _⟩ | ⟨h1, h2, _⟩ | ⟨err, h1, h2, _⟩
      · left; exact ⟨h1, h2⟩
      · right; rw [h1]; exact ⟨by simp, h2⟩
      · right; rw [h1]; exact ⟨by simp, h2⟩

/-- A chunk reported missing in the part after the `defer` decides its result. -/
theorem body_missing {σ : Type} (w : World σ) (o : Options) (pivot : Nat) (node : Node)
    (size : Nat) (buf : List Nat) (addrs : List Address) (s : σ) (e : Entry)
    (he : e ∈ (afterDefer w o pivot node size buf addrs s).log) (hm : e.missing = true) :
    (afterDefer w o pivot node size buf addrs s).outcome
      = .error (GoErr.New "pinning node: chunk not found") := by
  rcases afterDefer_cases w o pivot node size buf addrs s with
    ⟨e1, hout, hl⟩ | ⟨s1, _, ⟨err, herr, hout, hl⟩ | ⟨hok, hout, hl⟩⟩
  · rw [hl] at he
    simp only [List.mem_singleton] at he
    rw [he] at hm
    cases hm
  · obtain ⟨hflood, _⟩ := floodLoop_shape w pivot node size o.StoreSizeDivisor.toNat s1
    rw [hl] at he
    simp only [List.mem_cons] at he
    rcases he with he | he
    · rw [he] at hm; cases hm
    · rw [missing_flood node size e (hflood e he)] at hm; cases hm
  · obtain ⟨hflood, _⟩ := floodLoop_shape w pivot node size o.StoreSizeDivisor.toNat s1
    obtain ⟨_, hlres⟩ := hasLoop_shape w node addrs
      (floodLoop w pivot node size o.StoreSizeDivisor.toNat s1).final
    rw [hl] at he
    simp only [List.mem_cons, List.mem_append] at he
    rcases he with he | he | he | he
    · rw [he] at hm; cases hm
    · rw [missing_flood node size e (hflood e he)] at hm; cases hm
    · rw [he] at hm; cases hm
    · rw [hout]
      rcases hlres with ⟨_, _, hall⟩ | ⟨h1, _, _⟩ | ⟨err, _, _, _, hall⟩
      · rw [(hall e he).2] at hm; cases hm
      · exact h1
      · rw [hall e he] at hm; cases hm

theorem floodLoop_unpin {σ : Type} (w : World σ) (u : σ → Node → Address → Option GoErr × σ)
    (pivot : Nat) (node : Node) (size : Nat) : ∀ (k : Nat) (s : σ),
      floodLoop { w with UnpinChunk := u } pivot node size k s
        = floodLoop w pivot node size k s := by
  intro k
  induction k with
  | zero => intro s; rfl
  | succ k ih =>
    intro s
    unfold floodLoop
    simp only [ih]

theorem hasLoop_unpin {σ : Type} (w : World σ) (u : σ → Node → Address → Option GoErr × σ)
    (node : Node) : ∀ (addrs : List Address) (s : σ),
      hasLoop { w with UnpinChunk := u } node addrs s = hasLoop w node addrs s := by
  intro addrs
  induction addrs with
  | nil => intro s; rfl
  | cons a rest ih =>
    intro s
    unfold hasLoop
    simp only [ih]

theorem afterDefer_unpin {σ : Type} (w : World σ) (u : σ → Node → Address → Option GoErr × σ)
    (o : Options) (pivot : Nat) (node : Node) (size : Nat) (buf : List Nat)
    (addrs : List Address) (s : σ) :
    afterDefer { w with UnpinChunk := u } o pivot node size buf addrs s
      = afterDefer w o pivot node size buf addrs s := by
  unfold afterDefer
  simp only [floodLoop_unpin, hasLoop_unpin]

/-- The result of a run does not depend on what `UnpinChunk` answers. -/
theorem outcome_unpin {σ : Type} (w : World σ) (u : σ → Node → Address → Option GoErr × σ)
    (c : Cluster) (o : Options) (s0 : σ) :
    (CheckBytesFound { w with UnpinChunk := u } c o s0).outcome
      = (CheckBytesFound w c o s0).outcome := by
  unfold CheckBytesFound
  simp only [afterDefer_unpin]
  rcases w.Overlays s0 c with ⟨r, s1⟩
  cases r with
  | error e => rfl
  | ok ov =>
    simp only
    split_ifs
    · rfl
    · rfl
    · rfl
    · rfl
    · rcases w.Read s1 (payloadSize o).toNat with ⟨r2, s2⟩
      cases r2 with
      | error e => rfl
      | ok f =>
        simp only
        cases w.addresses (fill (payloadSize o).toNat f) with
        | error e => rfl
        | ok addrs =>
          simp only
          split <;> rfl

/-- A run that gets past the allocation of the buffer, the generation of the
payload and the computation of its addresses ends as the part after the
`defer` ends, and its log is the preamble, the log of that part and the log
of the deferred clean-up. -/
theorem run_reached {σ : Type} (w : World σ) (c : Cluster) (o : Options) (s0 s1 s2 : σ)
    (ov : List Address) (f : Nat → Nat) (addrs : List Address)
    (hsize : 0 < c.Size) (hd : o.StoreSizeDivisor ≠ 0) (hp : 0 ≤ payloadSize o)
    (hm : payloadSize o ≤ maxAlloc)
    (hov : w.Overlays s0 c = (.ok ov, s1))
    (hal : w.Alloc s1 (payloadSize o).toNat = true)
    (hr : w.Read s1 (payloadSize o).toNat = (.ok f, s2))
    (ha : w.addresses (fill (payloadSize o).toNat f) = .ok addrs) :
    ∃ node, c.Nodes.get? (w.Intn o.Seed c.Size) = some node ∧
      (CheckBytesFound w c o s0).outcome
        = (afterDefer w o (w.Intn o.Seed c.Size) node (payloadSize o).toNat
            (fill (payloadSize o).toNat f) addrs s2).outcome ∧
      (CheckBytesFound w c o s0).log
        = preamble (payloadSize o).toNat (fill (payloadSize o).toNat f) ++
          (afterDefer w o (w.Intn o.Seed c.Size) node (payloadSize o).toNat
            (fill (payloadSize o).toNat f) addrs s2).log ++
          (unpinLoop w node addrs
            (afterDefer w o (w.Intn o.Seed c.Size) node (payloadSize o).toNat
              (fill (payloadSize o).toNat f) addrs s2).final).1 := by
  obtain ⟨node, ov1, hnode, hover⟩ := pivot_in_range w c o s0 s1 ov hsize hov
  refine ⟨node, hnode, ?_⟩
  unfold CheckBytesFound
  rw [hov]
  have hrange : ¬ (payloadSize o < 0 ∨ maxAlloc < payloadSize o) := by omega
  simp only [not_le.mpr hsize, hd, hrange, hal, Bool.true_eq_false, if_false, hr, ha, hnode,
    hover]
  exact ⟨trivial, rfl⟩

/-- When neither `Read` nor `UploadBytes` fails, the flood runs to its end. -/
theorem floodLoop_ok {σ : Type} (w : World σ) (hR : ∀ s n, ∃ f, (w.Read s n).1 = .ok f)
    (hU : ∀ s node buf pin, (w.UploadBytes s node buf pin).1 = none)
    (pivot : Nat) (node : Node) (size : Nat) :
    ∀ (k : Nat) (s : σ), (floodLoop w pivot node size k s).outcome = .ok () := by
  intro k
  induction k with
  | zero => intro s; rfl
  | succ k ih =>
    intro s
    unfold floodLoop
    obtain ⟨f, hf⟩ := hR s size
    rcases hr : w.Read s size with ⟨r, s1⟩
    rw [hr] at hf
    simp only at hf
    subst hf
    simp only
    have hu := hU s1 node (fill size f) false
    rcases hu2 : w.UploadBytes s1 node (fill size f) false with ⟨r2, s2⟩
    rw [hu2] at hu
    simp only at hu
    subst hu
    simp only
    exact ih s2

/-- When neither `Read` nor `UploadBytes` fails, the part after the `defer`
gets to the final look-up, which decides its result. -/
theorem afterDefer_flooded {σ : Type} (w : World σ)
    (hR : ∀ s n, ∃ f, (w.Read s n).1 = .ok f)
    (hU : ∀ s node buf pin, (w.UploadBytes s node buf pin).1 = none)
    (o : Options) (pivot : Nat) (node : Node) (size : Nat) (buf : List Nat)
    (addrs : List Address) (s : σ) :
    ∃ s3 fl, (∀ e ∈ fl, e.ofFlood node size) ∧
      (afterDefer w o pivot node size buf addrs s).outcome
        = (hasLoop w node addrs s3).outcome ∧
      (afterDefer w o pivot node size buf addrs s).log
        = ⟨.UploadBytes node buf true, .ok⟩ ::
          (fl ++ ⟨.Sleep, .ok⟩ :: (hasLoop w node addrs s3).log) ∧
      (afterDefer w o pivot node size buf addrs s).final = (hasLoop w node addrs s3).final := by
  unfold afterDefer
  have hu := hU s node buf true
  rcases hu2 : w.UploadBytes s node buf true with ⟨r, s1⟩
  rw [hu2] at hu
  simp only at hu
  subst hu
  simp only
  have hok := floodLoop_ok w hR hU pivot node size o.StoreSizeDivisor.toNat s1
  simp only [hok]
  exact ⟨_, _, (floodLoop_shape w pivot node size o.StoreSizeDivisor.toNat s1).1, rfl, rfl, rfl⟩

/-- No entry of the flood is a call of the deferred clean-up. -/
theorem isUnpin_flood (node : Node) (size : Nat) (l : List Entry)
    (h : ∀ e ∈ l, e.ofFlood node size) : l.filter Entry.isUnpin = [] := by
  rw [List.filter_eq_nil_iff]
  intro e he
  rcases h e he with ⟨a, rfl⟩ | ⟨f, a, rfl⟩
  · simp [Entry.isUnpin]
  · simp [Entry.isUnpin]

/-- The scenario of the spec, 48 chunks and divisor 12 on one node, in a world
that behaves as `streamWorld` up to the final look-up: the run uploads a pinned
payload of 16384 bytes with the chunk addresses 0 to 3, floods, looks the four
addresses up, which decides the result, and unpins them. -/
theorem scenario_run (w : World Nat)
    (hO : ∀ s c, w.Overlays s c = (.ok c.Nodes, s)) (hI : ∀ seed n, w.Intn seed n = 0)
    (hA : ∀ s n, w.Alloc s n = true)
    (hR : ∀ s n, w.Read s n = (.ok (fun i => (s + i) % 256), s + n))
    (hAd : ∀ buf, w.addresses buf = .ok (List.range (buf.length / 4096)))
    (hU : ∀ s node buf pin, w.UploadBytes s node buf pin = (none, s)) :
    ∃ s3 fl buf, buf.length = 16384 ∧ (∀ e ∈ fl, e.ofFlood 0 16384) ∧
      (CheckBytesFound w oneNode scenarioOptions 0).outcome
        = (hasLoop w 0 [0, 1, 2, 3] s3).outcome ∧
      (CheckBytesFound w oneNode scenarioOptions 0).log
        = preamble 16384 buf ++
          ⟨.UploadBytes 0 buf true, .ok⟩ ::
            (fl ++ ⟨.Sleep, .ok⟩ :: (hasLoop w 0 [0, 1, 2, 3] s3).log) ++
          (unpinLoop w 0 [0, 1, 2, 3] (hasLoop w 0 [0, 1, 2, 3] s3).final).1 := by
  have hsz : (payloadSize scenarioOptions).toNat = 16384 := by decide
  have ha : w.addresses (fill (payloadSize scenarioOptions).toNat (fun i => (0 + i) % 256))
      = .ok [0, 1, 2, 3] := by
    rw [hAd, fill_length, hsz]
    rfl
  obtain ⟨node, hnode, hout, hlog⟩ := run_reached w oneNode scenarioOptions 0 0 _
    oneNode.Nodes _ [0, 1, 2, 3] (by decide) (by decide) (by decide) (by decide)
    (hO 0 oneNode) (hA _ _) (hR 0 _) ha
  have hn : node = 0 := by
    rw [hI] at hnode
    have : oneNode.Nodes.get? 0 = some node := hnode
    simpa [oneNode] using this.symm
  subst hn
  obtain ⟨s3, fl, hfl, hbo, hbl, hbf⟩ := afterDefer_flooded w
    (fun s n => ⟨_, by rw [hR]⟩) (fun s node buf pin => by rw [hU])
    scenarioOptions (w.Intn scenarioOptions.Seed oneNode.Size) 0
    (payloadSize scenarioOptions).toNat
    (fill (payloadSize scenarioOptions).toNat (fun i => (0 + i) % 256)) [0, 1, 2, 3]
    (0 + (payloadSize scenarioOptions).toNat)
  rw [hbo] at hout
  rw [hbl, hbf] at hlog
  rw [hsz] at hfl hlog
  exact ⟨s3, fl, fill 16384 (fun i => (0 + i) % 256), fill_length _ _, hfl, hout, hlog⟩

/-- The scenario of the spec in `streamWorld`: the result is nil, the four
chunk addresses of the pinned payload are looked up and found, and the
deferred clean-up unpins the four of them. -/
theorem stream_scenario :
    (CheckBytesFound streamWorld oneNode scenarioOptions 0).outcome = .ok () ∧
      confirmed (CheckBytesFound streamWorld oneNode scenarioOptions 0).log
        = [(0, 0), (0, 1), (0, 2), (0, 3)] ∧
      (CheckBytesFound streamWorld oneNode scenarioOptions 0).log.filter Entry.isUnpin
        = [⟨.UnpinChunk 0 0, .ok⟩, ⟨.UnpinChunk 0 1, .ok⟩, ⟨.UnpinChunk 0 2, .ok⟩,
            ⟨.UnpinChunk 0 3, .ok⟩] := by
  obtain ⟨s3, fl, buf, _, hfl, hout, hlog⟩ := scenario_run streamWorld (fun _ _ => rfl)
    (fun _ _ => rfl) (fun _ _ => rfl) (fun _ _ => rfl) (fun _ => rfl) (fun _ _ _ _ => rfl)
  have hlook : hasLoop streamWorld 0 [0, 1, 2, 3] s3
      = ⟨.ok (), [⟨.HasChunkRetry 0 0 1, .has true⟩, ⟨.HasChunkRetry 0 1 1, .has true⟩,
          ⟨.HasChunkRetry 0 2 1, .has true⟩, ⟨.HasChunkRetry 0 3 1, .has true⟩], s3⟩ := rfl
  have hclean : unpinLoop streamWorld 0 [0, 1, 2, 3] s3
      = ([⟨.UnpinChunk 0 0, .ok⟩, ⟨.UnpinChunk 0 1, .ok⟩, ⟨.UnpinChunk 0 2, .ok⟩,
          ⟨.UnpinChunk 0 3, .ok⟩], s3) := rfl
  rw [hlook] at hout hlog
  simp only [hclean] at hlog
  refine ⟨hout, ?_, ?_⟩
  · rw [hlog, confirmed_append, confirmed_append, confirmed_cons, confirmed_append,
      confirmed_flood 0 16384 fl hfl]
    simp [preamble, confirmed, Entry.confirmed]
  · rw [hlog, List.filter_append, List.filter_append, List.filter_cons, List.filter_append,
      isUnpin_flood 0 16384 fl hfl]
    simp [preamble, Entry.isUnpin]

/-- The scenario of the spec in `lossyWorld`: the addresses 0 and 1 are found,
address 2 is reported missing, address 3 is not looked up any more, and the
deferred clean-up still unpins the four addresses. -/
theorem lossy_scenario :
    (⟨.HasChunkRetry 0 2 1, .has false⟩ : Entry)
        ∈ (CheckBytesFound lossyWorld oneNode scenarioOptions 0).log ∧
      confirmed (CheckBytesFound lossyWorld oneNode scenarioOptions 0).log
        = [(0, 0), (0, 1)] ∧
      (CheckBytesFound lossyWorld oneNode scenarioOptions 0).log.filter Entry.isUnpin
        = [⟨.UnpinChunk 0 0, .ok⟩, ⟨.UnpinChunk 0 1, .ok⟩, ⟨.UnpinChunk 0 2, .ok⟩,
            ⟨.UnpinChunk 0 3, .ok⟩] := by
  obtain ⟨s3, fl, buf, _, hfl, hout, hlog⟩ := scenario_run lossyWorld (fun _ _ => rfl)
    (fun _ _ => rfl) (fun _ _ => rfl) (fun _ _ => rfl) (fun _ => rfl) (fun _ _ _ _ => rfl)
  have hlook : hasLoop lossyWorld 0 [0, 1, 2, 3] s3
      = ⟨.error (GoErr.New "pinning node: chunk not found"),
          [⟨.HasChunkRetry 0 0 1, .has true⟩, ⟨.HasChunkRetry 0 1 1, .has true⟩,
            ⟨.HasChunkRetry 0 2 1, .has false⟩], s3⟩ := rfl
  have hclean : unpinLoop lossyWorld 0 [0, 1, 2, 3] s3
      = ([⟨.UnpinChunk 0 0, .ok⟩, ⟨.UnpinChunk 0 1, .ok⟩, ⟨.UnpinChunk 0 2, .ok⟩,
          ⟨.UnpinChunk 0 3, .ok⟩], s3) := rfl
  rw [hlook] at hlog
  simp only [hclean] at hlog
  refine ⟨?_, ?_, ?_⟩
  · rw [hlog]
    simp
  · rw [hlog, confirmed_append, confirmed_append, confirmed_cons, confirmed_append,
      confirmed_flood 0 16384 fl hfl]
    simp [preamble, confirmed, Entry.confirmed]
  · rw [hlog, List.filter_append, List.filter_append, List.filter_cons, List.filter_append,
      isUnpin_flood 0 16384 fl hfl]
    simp [preamble, Entry.isUnpin]

/-- The scenario of the spec in `stuckWorld`: the four chunk addresses are
found, and each of the four `UnpinChunk` calls of the deferred clean-up
fails. -/
theorem stuck_scenario :
    confirmed (CheckBytesFound stuckWorld oneNode scenarioOptions 0).log
        = [(0, 0), (0, 1), (0, 2), (0, 3)] ∧
      (CheckBytesFound stuckWorld oneNode scenarioOptions 0).log.filter Entry.isUnpin
        = [⟨.UnpinChunk 0 0, .err unpinFailure⟩, ⟨.UnpinChunk 0 1, .err unpinFailure⟩,
            ⟨.UnpinChunk 0 2, .err unpinFailure⟩, ⟨.UnpinChunk 0 3, .err unpinFailure⟩] := by
  obtain ⟨s3, fl, buf, _, hfl, hout, hlog⟩ := scenario_run stuckWorld (fun _ _ => rfl)
    (fun _ _ => rfl) (fun _ _ => rfl) (fun _ _ => rfl) (fun _ => rfl) (fun _ _ _ _ => rfl)
  have hlook : hasLoop stuckWorld 0 [0, 1, 2, 3] s3
      = ⟨.ok (), [⟨.HasChunkRetry 0 0 1, .has true⟩, ⟨.HasChunkRetry 0 1 1, .has true⟩,
          ⟨.HasChunkRetry 0 2 1, .has true⟩, ⟨.HasChunkRetry 0 3 1, .has true⟩], s3⟩ := rfl
  have hclean : unpinLoop stuckWorld 0 [0, 1, 2, 3] s3
      = ([⟨.UnpinChunk 0 0, .err unpinFailure⟩, ⟨.UnpinChunk 0 1, .err unpinFailure⟩,
          ⟨.UnpinChunk 0 2, .err unpinFailure⟩, ⟨.UnpinChunk 0 3, .err unpinFailure⟩],
          s3) := rfl
  rw [hlook] at hlog
  simp only [hclean] at hlog
  refine ⟨?_, ?_⟩
  · rw [hlog, confirmed_append, confirmed_append, confirmed_cons, confirmed_append,
      confirmed_flood 0 16384 fl hfl]
    simp [preamble, confirmed, Entry.confirmed]
  · rw [hlog, List.filter_append, List.filter_append, List.filter_cons, List.filter_append,
      isUnpin_flood 0 16384 fl hfl]
    simp [preamble, Entry.isUnpin]

/-- C2. `CheckBytesFound` returns nil if and only if the overlay look-up, the
generation of the payload, the computation of its addresses, the pinned upload
and every unpinned upload took place and succeeded and `HasChunkRetry`
reported, without error, that the pivot node has every chunk address of the
pinned payload; a chunk address reported missing makes it fail with the error
"pinning node: chunk not found"; and what the deferred `UnpinChunk` answers
never changes the result. -/
theorem result_nil_iff {σ : Type} (w : World σ) (c : Cluster) (o : Options) (s0 : σ) :
    ((CheckBytesFound w c o s0).outcome = .ok ()
        ↔ allSucceeded w c o (CheckBytesFound w c o s0).log) ∧
      (∀ node a r, (⟨.HasChunkRetry node a r, .has false⟩ : Entry)
          ∈ (CheckBytesFound w c o s0).log →
        (CheckBytesFound w c o s0).outcome
          = .error (GoErr.New "pinning node: chunk not found")) ∧
      (∀ u, (CheckBytesFound { w with UnpinChunk := u } c o s0).outcome
        = (CheckBytesFound w c o s0).outcome) := by
  refine ⟨?_, ?_, fun u => outcome_unpin w u c o s0⟩
  · rcases CheckBytesFound_cases w c o s0 with
      ⟨hne, hpin, _, _, _⟩ | ⟨_, _, _, _, f, s2, addrs, node, hnode, ha, hout, hlog⟩
    · constructor
      · intro h; exact absurd h hne
      · rintro ⟨_, _, node, buf, addrs, _, _, _, h, _⟩
        rw [hpin] at h
        cases h
    · have hclean := unpinLoop_shape w node addrs
        (afterDefer w o (w.Intn o.Seed c.Size) node (payloadSize o).toNat
          (fill (payloadSize o).toNat f) addrs s2).final
      have hP : pinnedOk (CheckBytesFound w c o s0).log
          = pinnedOk (afterDefer w o (w.Intn o.Seed c.Size) node (payloadSize o).toNat
            (fill (payloadSize o).toNat f) addrs s2).log := by
        rw [hlog, pinnedOk_append, pinnedOk_append, pinnedOk_cleanup node _ hclean]
        simp [preamble, pinnedOk, Entry.pinnedOk]
      have hU : unpinnedOk (CheckBytesFound w c o s0).log
          = unpinnedOk (afterDefer w o (w.Intn o.Seed c.Size) node (payloadSize o).toNat
            (fill (payloadSize o).toNat f) addrs s2).log := by
        rw [hlog, unpinnedOk_append, unpinnedOk_append, unpinnedOk_cleanup node _ hclean]
        simp [preamble, unpinnedOk, Entry.unpinnedOk]
      have hC : confirmed (CheckBytesFound w c o s0).log
          = confirmed (afterDefer w o (w.Intn o.Seed c.Size) node (payloadSize o).toNat
            (fill (payloadSize o).toNat f) addrs s2).log := by
        rw [hlog, confirmed_append, confirmed_append, confirmed_cleanup node _ hclean]
        simp [preamble, confirmed, Entry.confirmed]
      rw [hout]
      unfold allSucceeded
      rw [hP, hU, hC]
      rcases body_measures w o (w.Intn o.Seed c.Size) node (payloadSize o).toNat
          (fill (payloadSize o).toNat f) addrs s2 with
        ⟨hne, hpin⟩ | ⟨hne, hlt⟩ | ⟨hpin, hcount, ⟨hok, hconf⟩ | ⟨hne, hlen⟩⟩
      · constructor
        · intro h; exact absurd h hne
        · rintro ⟨_, _, node1, buf1, addrs1, _, _, _, h, _⟩
          rw [hpin] at h
          cases h
      · constructor
        · intro h; exact absurd h hne
        · rintro ⟨_, _, node1, buf1, addrs1, _, _, _, _, h, _⟩
          omega
      · constructor
        · intro _
          refine ⟨by rw [hlog]; simp [preamble], ⟨(payloadSize o).toNat, by rw [hlog]; simp [preamble]⟩,
            node, _, addrs, hnode, by rw [hlog]; simp [preamble], ha, hpin, hcount, hconf⟩
        · intro _; exact hok
      · constructor
        · intro h; exact absurd h hne
        · rintro ⟨_, _, node1, buf1, addrs1, _, _, ha1, h, _, hc⟩
          rw [hpin] at h
          have h1 := List.cons.inj h
          have h2 := Prod.mk.inj h1.1
          rw [← h2.2, ha] at ha1
          cases ha1
          rw [hc, List.length_map] at hlen
          omega
  · intro node1 a r hmem
    rcases CheckBytesFound_cases w c o s0 with
      ⟨_, _, _, hmiss, _⟩ | ⟨_, _, _, _, f, s2, addrs, node, hnode, ha, hout, hlog⟩
    · have := hmiss _ hmem
      cases this
    · rw [hlog] at hmem
      simp only [List.mem_append] at hmem
      rcases hmem with (hmem | hmem) | hmem
      · simp [preamble] at hmem
      · rw [hout]
        exact body_missing w o _ node _ _ addrs s2 _ hmem rfl
      · have := missing_cleanup node _ (unpinLoop_shape w node addrs _ _ hmem)
        cases this

/-- Witness for C2: the scenario of the spec, 48 chunks and divisor 12 on one
node, where the pinned payload has the four chunk addresses 0 to 3.  In a world
without failure the four addresses are looked up and found, the result is nil
and every step succeeded; when the node has lost chunk 2 the look-up of
address 2 answers `false`, the result is the error "pinning node: chunk not
found" and not every step succeeded; in both runs the deferred clean-up unpins
the four addresses; and when each of the four `UnpinChunk` calls fails the
result is still nil. -/
theorem result_nil_iff_witness :
    ((CheckBytesFound streamWorld oneNode scenarioOptions 0).outcome = .ok () ∧
        allSucceeded streamWorld oneNode scenarioOptions
          (CheckBytesFound streamWorld oneNode scenarioOptions 0).log ∧
        confirmed (CheckBytesFound streamWorld oneNode scenarioOptions 0).log
          = [(0, 0), (0, 1), (0, 2), (0, 3)] ∧
        (CheckBytesFound streamWorld oneNode scenarioOptions 0).log.filter Entry.isUnpin
          = [⟨.UnpinChunk 0 0, .ok⟩, ⟨.UnpinChunk 0 1, .ok⟩, ⟨.UnpinChunk 0 2, .ok⟩,
              ⟨.UnpinChunk 0 3, .ok⟩]) ∧
      ((⟨.HasChunkRetry 0 2 1, .has false⟩ : Entry)
          ∈ (CheckBytesFound lossyWorld oneNode scenarioOptions 0).log ∧
        (CheckBytesFound lossyWorld oneNode scenarioOptions 0).outcome
          = .error (GoErr.New "pinning node: chunk not found") ∧
        ¬ allSucceeded lossyWorld oneNode scenarioOptions
          (CheckBytesFound lossyWorld oneNode scenarioOptions 0).log ∧
        confirmed (CheckBytesFound lossyWorld oneNode scenarioOptions 0).log
          = [(0, 0), (0, 1)] ∧
        (CheckBytesFound lossyWorld oneNode scenarioOptions 0).log.filter Entry.isUnpin
          = [⟨.UnpinChunk 0 0, .ok⟩, ⟨.UnpinChunk 0 1, .ok⟩, ⟨.UnpinChunk 0 2, .ok⟩,
              ⟨.UnpinChunk 0 3, .ok⟩]) ∧
      ((CheckBytesFound stuckWorld oneNode scenarioOptions 0).log.filter Entry.isUnpin
          = [⟨.UnpinChunk 0 0, .err unpinFailure⟩, ⟨.UnpinChunk 0 1, .err unpinFailure⟩,
              ⟨.UnpinChunk 0 2, .err unpinFailure⟩, ⟨.UnpinChunk 0 3, .err unpinFailure⟩] ∧
        (CheckBytesFound stuckWorld oneNode scenarioOptions 0).outcome = .ok () ∧
        allSucceeded stuckWorld oneNode scenarioOptions
          (CheckBytesFound stuckWorld oneNode scenarioOptions 0).log) := by
  obtain ⟨hsok, hsconf, hsunpin⟩ := stream_scenario
  obtain ⟨hlmiss, hlconf, hlunpin⟩ := lossy_scenario
  obtain ⟨_, hkunpin⟩ := stuck_scenario
  have hlout := (result_nil_iff lossyWorld oneNode scenarioOptions 0).2.1 0 2 1 hlmiss
  have hkout : (CheckBytesFound stuckWorld oneNode scenarioOptions 0).outcome = .ok () :=
    ((result_nil_iff streamWorld oneNode scenarioOptions 0).2.2
      (fun s _ _ => (some unpinFailure, s))).trans hsok
  refine ⟨⟨hsok, (result_nil_iff streamWorld oneNode scenarioOptions 0).1.mp hsok, hsconf,
    hsunpin⟩, ⟨hlmiss, hlout, ?_, hlconf, hlunpin⟩,
    ⟨hkunpin, hkout, (result_nil_iff stuckWorld oneNode scenarioOptions 0).1.mp hkout⟩⟩
  intro h
  have hok := (result_nil_iff lossyWorld oneNode scenarioOptions 0).1.mpr h
  rw [hlout] at hok
  cases hok

end localpinning

/-! ## Claims on the single-owner-chunk check -/

namespace soc

/-- C3. `Check` returns nil if and only if key generation, chunk construction,
signing, the upload and the download all took place and succeeded and the
bytes downloaded for the uploaded signed chunk are equal to the data
`sch.Data()` of the signed chunk; when the downloaded bytes differ from that
data it fails with the error "soc: retrieved chunk data does NOT match soc
chunk". -/
theorem check_nil_iff (env : Env) (o : Options) :
    ((Check env o).outcome = .ok () ↔
        succeeded isKeyGen (Check env o).log = true ∧
        succeeded isChunk (Check env o).log = true ∧
        succeeded isSign (Check env o).log = true ∧
        succeeded isUpload (Check env o).log = true ∧
        succeeded isDownload (Check env o).log = true ∧
        ∃ d, downloaded (Check env o).log = some d ∧ signedData (Check env o).log = some d) ∧
      (∀ d d1, downloaded (Check env o).log = some d → signedData (Check env o).log = some d1 →
        d ≠ d1 → (Check env o).outcome = .error mismatch) := by
  unfold Check
  cases env.NodesSorted o.NodeGroup with
  | none => simp [succeeded, downloaded, signedData]
  | some sortedNodes =>
    simp only
    cases env.GenerateSecp256k1Key with
    | error e => simp [succeeded, downloaded, signedData, isKeyGen]
    | ok privKey =>
      simp only
      cases env.cacNew payload with
      | error e => simp [succeeded, downloaded, signedData, isKeyGen, isChunk]
      | ok chData =>
        simp only
        cases randomID env with
        | error e => simp [succeeded, downloaded, signedData, isKeyGen, isChunk, isSign]
        | ok idBytes =>
          simp only
          cases env.Sign privKey idBytes chData with
          | error e => simp [succeeded, downloaded, signedData, isKeyGen, isChunk, isSign]
          | ok chunkData =>
            simp only
            unfold afterSign
            split_ifs with hlen
            · simp [succeeded, downloaded, signedData, isKeyGen, isChunk, isSign, isUpload]
            · cases env.PublicKey privKey with
              | error e =>
                simp [succeeded, downloaded, signedData, isKeyGen, isChunk, isSign, isUpload]
              | ok publicKey =>
                simp only
                cases env.NewEthereumAddress publicKey with
                | error e =>
                  simp [succeeded, downloaded, signedData, isKeyGen, isChunk, isSign, isUpload]
                | ok ownerBytes =>
                  simp only
                  cases sortedNodes with
                  | nil =>
                    simp [succeeded, downloaded, signedData, isKeyGen, isChunk, isSign,
                      isUpload]
                  | cons nodeName rest =>
                    simp only
                    unfold roundTrip
                    cases env.UploadSOC nodeName (EncodeToString ownerBytes)
                        (EncodeToString idBytes)
                        (EncodeToString ((chunkData.drop IdSize).take SignatureSize))
                        chData with
                    | error e =>
                      simp [succeeded, downloaded, signedData, isKeyGen, isChunk, isSign,
                        isUpload]
                    | ok ref =>
                      simp only
                      cases env.DownloadChunk nodeName ref with
                      | error e =>
                        simp [succeeded, downloaded, signedData, isKeyGen, isChunk, isSign,
                          isUpload, isDownload]
                      | ok retrieved =>
                        simp only
                        by_cases heq : retrieved = chunkData
                        · simp [heq, succeeded, downloaded, signedData, isKeyGen, isChunk,
                            isSign, isUpload, isDownload]
                        · simp [heq, succeeded, downloaded, signedData, isKeyGen, isChunk,
                            isSign, isUpload, isDownload]
                          intro h
                          exact absurd h.symm heq

/-- Witness for C3: with a node that returns the signed chunk the check returns
nil; with a node that returns no bytes it fails with the mismatch error. -/
theorem check_nil_iff_witness :
    (Check echoEnv ⟨"bee"⟩).outcome = .ok () ∧
      (Check emptyEnv ⟨"bee"⟩).outcome = .error mismatch :=
  ⟨(check_nil_iff echoEnv ⟨"bee"⟩).1.mpr (by decide),
    (check_nil_iff emptyEnv ⟨"bee"⟩).2 [] (List.replicate 32 0 ++ List.replicate 65 0 ++ payload)
      (by decide) (by decide) (by decide)⟩

end soc
